import Mathlib

set_option autoImplicit false

/-!
Verification of the experiment-orchestration core of `rprml`
(`rprml/core/experiment.py` together with the `Simulation` dataclass of
`rprml/core/simulation.py`), as a shallow embedding: the identifier builder
is modelled over a small reflection of Python dataclasses, and `full_run`
is modelled as a pure function from its arguments to the trace of its
observable events (pool lifecycle, job submission, result collection and
disk persistence) together with the exception escaping it, if any.
-/

namespace Rprml

/-- A Python runtime value as seen by the identifier builder: either a
numeric scalar (a value for which `isinstance(v, numbers.Number)` holds) or
any other value, represented here by its `str(v)` form. -/
inductive PyVal where
  | num (n : Int)
  | other (s : String)
deriving DecidableEq, Repr

/-- A value stored in an identifier after normalization: numeric scalars
are kept as they are, every other value has been replaced by its string
representation. -/
inductive IdVal where
  | num (n : Int)
  | str (s : String)
deriving DecidableEq, Repr

/-- The normalization performed by the loop body of
`construct_simulation_identifier`:
`if not isinstance(identifier[key], numbers.Number): identifier[key] = str(identifier[key])`. -/
def normalizeVal : PyVal → IdVal
  | .num n => .num n
  | .other s => .str s

/-- Python `d[k] = v` on an insertion-ordered dictionary represented as an
association list: an existing key keeps its position and gets the new value,
a new key is appended at the end. -/
def dictSet {α : Type} (d : List (String × α)) (k : String) (v : α) :
    List (String × α) :=
  if d.any (fun p => p.1 == k) then
    d.map (fun p => if p.1 == k then (k, v) else p)
  else d ++ [(k, v)]

/-- Python `del d[k]`. -/
def dictDel {α : Type} (d : List (String × α)) (k : String) :
    List (String × α) :=
  d.filter (fun p => !(p.1 == k))

/-- The effect of `identifier.update(cls.__annotations__)` on the ordered
key list of the `identifier` dictionary: new keys are appended in order,
keys already present keep their position. -/
def dictUpdateKeys (d : List String) (ks : List String) : List String :=
  ks.foldl (fun acc k => if k ∈ acc then acc else acc ++ [k]) d

mutual
/-- A Python class as seen by the `append_identifiers` helper: whether
`dataclasses.is_dataclass` holds for it, the keys of its `__annotations__`
in declaration order, and its `__bases__`. -/
inductive PyClass where
  | mk (isDataclass : Bool) (annotations : List String) (bases : PyClassList)

/-- The `__bases__` tuple of a Python class. -/
inductive PyClassList where
  | nil
  | cons (head : PyClass) (tail : PyClassList)
end

mutual
/-- The recursive helper `append_identifiers(cls)` of
`construct_simulation_identifier`, tracked on the ordered key list of the
`identifier` dictionary: a dataclass contributes its annotation keys through
`identifier.update(cls.__annotations__)` and then every base class is
visited recursively; a non-dataclass contributes nothing. -/
def appendIdentifiers : PyClass → List String → List String
  | .mk isDc anns bases, d =>
    if isDc then appendIdentifiersList bases (dictUpdateKeys d anns) else d

/-- `append_identifiers` iterated over `cls.__bases__`. -/
def appendIdentifiersList : PyClassList → List String → List String
  | .nil, d => d
  | .cons c cs, d => appendIdentifiersList cs (appendIdentifiers c d)
end

/-- A Python object as seen by the identifier builder: its class and its
attribute values, keyed by attribute name. -/
structure PyInstance where
  cls : PyClass
  attrs : List (String × PyVal)

/-- The immutable normalized mapping returned by
`construct_simulation_identifier` (a `HashableDict`), as an
insertion-ordered association list with pairwise distinct keys. -/
abbrev Identifier := List (String × IdVal)

/-- Python `simulation.__getattribute__(key)`; `none` models an
`AttributeError` for a missing attribute. -/
def pyGetattr (simulation : PyInstance) (key : String) : Option PyVal :=
  simulation.attrs.lookup key

/-- The learning-rate renaming step of `construct_simulation_identifier`:
`if '_learning_rate' in identifier.keys(): identifier['learning_rate'] =
identifier['_learning_rate']; del identifier['_learning_rate']`. -/
def renameLearningRate (d : Identifier) : Identifier :=
  match d.lookup "_learning_rate" with
  | none => d
  | some v => dictDel (dictSet d "learning_rate" v) "_learning_rate"

/-- Mapping a fallible function over a list, stopping at the first failure:
the loop `for key in identifier.keys(): identifier[key] = ...` over the
`Option` monad. -/
def optionMapList {α β : Type} (g : α → Option β) : List α → Option (List β)
  | [] => some []
  | x :: xs =>
    match g x with
    | none => none
    | some y =>
      match optionMapList g xs with
      | none => none
      | some ys => some (y :: ys)

/-- The body of the value-reading loop of `construct_simulation_identifier`:
read the attribute named `k` off the instance and normalize it, keeping the
key. -/
def readField (simulation : PyInstance) (k : String) :
    Option (String × IdVal) :=
  (pyGetattr simulation k).map (fun v => (k, normalizeVal v))

/-- `Experiment.construct_simulation_identifier` (default implementation):
collect the annotation keys of the simulation's dataclass hierarchy, read
the current value of each such attribute off the instance, normalize it
(numeric scalars kept, everything else stringified), rename the private
`_learning_rate` key to `learning_rate`, and return the resulting hashable
mapping. `none` models the `AttributeError` raised when a discovered field
is absent from the instance. -/
def construct_simulation_identifier (simulation : PyInstance) :
    Option Identifier :=
  (optionMapList (readField simulation)
      (appendIdentifiers simulation.cls [])).map renameLearningRate

/-- The keys of `__annotations__` of the `Simulation` dataclass of
`rprml/core/simulation.py`, in declaration order (`executor_class` and the
name-mangled `__initialized` carry no annotation and are absent; the
`learning_rate` property is not an annotated field). -/
def simulationAnnotations : List String :=
  ["seed", "device", "model_factory", "data", "n_train", "n_valid",
   "loss_function", "batch_size", "_learning_rate", "simulation_name",
   "data_factory_kwargs", "model_factory_kwargs"]

/-- Python `object`: not a dataclass, no bases of interest. -/
def objectClass : PyClass := .mk false [] .nil

/-- The `Simulation` dataclass: a dataclass with `simulationAnnotations`
as annotation keys whose only base class is `object`. -/
def SimulationClass : PyClass :=
  .mk true simulationAnnotations (.cons objectClass .nil)

/-- A freshly constructed `Simulation` instance with the given seed, device
and batch size (the remaining declared fields are fixed concrete values;
non-numeric attributes are recorded by their `str` form). -/
def mkSimInstance (seed : Int) (device : String) (batch_size : Int) :
    PyInstance where
  cls := SimulationClass
  attrs :=
    [("seed", .num seed), ("device", .other device),
     ("model_factory", .other "<function mlp_factory>"),
     ("data", .other "mnist"), ("n_train", .num 100), ("n_valid", .num 50),
     ("loss_function", .other "CrossEntropyLoss()"),
     ("batch_size", .num batch_size), ("_learning_rate", .num 1),
     ("simulation_name", .other "Simulation"),
     ("data_factory_kwargs", .other "dict()"),
     ("model_factory_kwargs", .other "dict()")]

/-! ### Association-list and key-collection lemmas -/

theorem optionMapList_congr {α β : Type} {f g : α → Option β} :
    ∀ (l : List α), (∀ a ∈ l, f a = g a) →
      optionMapList f l = optionMapList g l := by
  intro l
  induction l with
  | nil => intro _; rfl
  | cons x xs ih =>
      intro h
      simp only [optionMapList, h x (List.mem_cons_self x xs),
        ih (fun a ha => h a (List.mem_cons_of_mem _ ha))]

theorem optionMapList_mem {α β : Type} (g : α → Option β) :
    ∀ (l : List α) (ys : List β) (y : β),
      optionMapList g l = some ys → y ∈ ys → ∃ x ∈ l, g x = some y := by
  intro l
  induction l with
  | nil =>
      intro ys y h hy
      simp only [optionMapList, Option.some.injEq] at h
      subst h; cases hy
  | cons x xs ih =>
      intro ys y h hy
      simp only [optionMapList] at h
      cases hx : g x with
      | none => rw [hx] at h; cases h
      | some y0 =>
          rw [hx] at h
          cases hrest : optionMapList g xs with
          | none => rw [hrest] at h; cases h
          | some ys0 =>
              rw [hrest] at h
              simp only [Option.some.injEq] at h
              subst h
              rcases List.mem_cons.mp hy with hy0 | hy1
              · exact ⟨x, List.mem_cons_self x xs, hy0 ▸ hx⟩
              · rcases ih ys0 y hrest hy1 with ⟨x1, hx1, hgx1⟩
                exact ⟨x1, List.mem_cons_of_mem _ hx1, hgx1⟩

theorem optionMapList_fst {β : Type} (g : String → Option (String × β))
    (hfst : ∀ x y, g x = some y → y.1 = x) :
    ∀ (l : List String) (ys : List (String × β)),
      optionMapList g l = some ys → ys.map Prod.fst = l := by
  intro l
  induction l with
  | nil =>
      intro ys h
      simp only [optionMapList, Option.some.injEq] at h
      subst h; rfl
  | cons x xs ih =>
      intro ys h
      simp only [optionMapList] at h
      cases hx : g x with
      | none => rw [hx] at h; cases h
      | some y0 =>
          rw [hx] at h
          cases hrest : optionMapList g xs with
          | none => rw [hrest] at h; cases h
          | some ys0 =>
              rw [hrest] at h
              simp only [Option.some.injEq] at h
              subst h
              simp only [List.map_cons, ih ys0 hrest, hfst x y0 hx]

theorem optionMapList_lookup {β : Type} (g : String → Option (String × β))
    (hfst : ∀ x y, g x = some y → y.1 = x) :
    ∀ (l : List String) (ys : List (String × β)) (k : String) (v : β),
      l.Nodup → optionMapList g l = some ys → g k = some (k, v) →
      k ∈ l → ys.lookup k = some v := by
  intro l
  induction l with
  | nil => intro ys k v _ _ _ hk; cases hk
  | cons x xs ih =>
      intro ys k v hnd h hg hk
      simp only [optionMapList] at h
      cases hx : g x with
      | none => rw [hx] at h; cases h
      | some y0 =>
          rw [hx] at h
          cases hrest : optionMapList g xs with
          | none => rw [hrest] at h; cases h
          | some ys0 =>
              rw [hrest] at h
              simp only [Option.some.injEq] at h
              subst h
              rcases List.mem_cons.mp hk with hk0 | hk1
              · subst hk0
                rw [hg] at hx
                cases hx
                exact List.lookup_cons_self
              · have hxk : x ≠ k := by
                  intro hcon
                  subst hcon
                  exact (List.nodup_cons.mp hnd).1 hk1
                have hx1 : y0.1 = x := hfst x y0 hx
                rw [List.lookup_cons]
                have : (k == y0.1) = false := by
                  rw [hx1]
                  exact beq_false_of_ne (fun hcon => hxk hcon.symm)
                rw [this]
                exact ih ys0 k v (List.nodup_cons.mp hnd).2 hrest hg hk1

theorem lookup_cons_if {β : Type} (p : String × β) (ps : List (String × β))
    (k : String) :
    (p :: ps).lookup k = if k == p.1 then some p.2 else ps.lookup k := by
  cases p with
  | mk a b =>
      rw [List.lookup_cons]
      cases h : k == a
      · simp
      · simp

theorem dictUpdateKeys_nodup :
    ∀ (ks : List String) (d : List String), d.Nodup →
      (dictUpdateKeys d ks).Nodup := by
  intro ks
  induction ks with
  | nil => intro d h; exact h
  | cons k ks ih =>
      intro d h
      have h2 : (if k ∈ d then d else d ++ [k]).Nodup := by
        by_cases hk : k ∈ d
        · simpa [hk] using h
        · simp [hk, List.nodup_append, h]
      have h3 := ih (if k ∈ d then d else d ++ [k]) h2
      simpa [dictUpdateKeys, List.foldl_cons] using h3

mutual
theorem appendIdentifiers_nodup :
    ∀ (c : PyClass) (d : List String), d.Nodup → (appendIdentifiers c d).Nodup
  | .mk true anns bases, d, h => by
      rw [appendIdentifiers]
      simpa using appendIdentifiersList_nodup bases _ (dictUpdateKeys_nodup anns d h)
  | .mk false _ _, d, h => by
      rw [appendIdentifiers]
      simpa using h

theorem appendIdentifiersList_nodup :
    ∀ (cs : PyClassList) (d : List String), d.Nodup →
      (appendIdentifiersList cs d).Nodup
  | .nil, _, h => h
  | .cons c cs, d, h =>
      appendIdentifiersList_nodup cs _ (appendIdentifiers_nodup c d h)
end

theorem lookup_mem {β : Type} :
    ∀ (d : List (String × β)) (k : String) (v : β),
      d.lookup k = some v → (k, v) ∈ d := by
  intro d
  induction d with
  | nil => intro k v h; cases h
  | cons p ps ih =>
      intro k v h
      rw [lookup_cons_if] at h
      by_cases hk : (k == p.1) = true
      · rw [if_pos hk] at h
        cases p with
        | mk a b =>
            have hka : k = a := eq_of_beq hk
            simp only [Option.some.injEq] at h
            subst hka
            subst h
            exact List.mem_cons_self _ _
      · rw [if_neg hk] at h
        exact List.mem_cons_of_mem _ (ih k v h)

theorem dictDel_lookup_self {β : Type} (d : List (String × β)) (k : String) :
    (dictDel d k).lookup k = none := by
  induction d with
  | nil => rfl
  | cons p ps ih =>
      rw [dictDel, List.filter_cons]
      by_cases hp : p.1 = k
      · have hb : (!(p.1 == k)) = false := by simp [hp]
        rw [hb]
        simpa [dictDel] using ih
      · have hb : (!(p.1 == k)) = true := by simp [hp]
        rw [hb]
        simp only [if_true]
        rw [lookup_cons_if]
        have hf : (k == p.1) = false := beq_false_of_ne (fun hcon => hp hcon.symm)
        rw [hf]
        simpa [dictDel] using ih

theorem dictDel_lookup_ne {β : Type} (d : List (String × β)) (k k2 : String)
    (h : k2 ≠ k) : (dictDel d k).lookup k2 = d.lookup k2 := by
  induction d with
  | nil => rfl
  | cons p ps ih =>
      rw [dictDel, List.filter_cons]
      by_cases hp : p.1 = k
      · have hb : (!(p.1 == k)) = false := by simp [hp]
        rw [hb]
        simp only [Bool.false_eq_true, if_false]
        rw [lookup_cons_if]
        have hf : (k2 == p.1) = false :=
          beq_false_of_ne (fun hcon => h (hcon.trans hp))
        rw [hf]
        simpa [dictDel] using ih
      · have hb : (!(p.1 == k)) = true := by simp [hp]
        rw [hb]
        simp only [if_true]
        rw [lookup_cons_if, lookup_cons_if]
        by_cases hk2 : (k2 == p.1) = true
        · rw [hk2]
          simp
        · have hf : (k2 == p.1) = false := by
            cases h2 : k2 == p.1
            · rfl
            · exact absurd h2 hk2
          rw [hf]
          simpa [dictDel] using ih

theorem dictSet_lookup_self {β : Type} (d : List (String × β)) (k : String)
    (v : β) : (dictSet d k v).lookup k = some v := by
  rw [dictSet]
  by_cases hany : d.any (fun p => p.1 == k)
  · rw [if_pos hany]
    induction d with
    | nil => cases hany
    | cons p ps ih =>
        rw [List.any_cons] at hany
        rw [List.map_cons]
        by_cases hp : (p.1 == k) = true
        · rw [if_pos hp]
          exact List.lookup_cons_self
        · have hp2 : (p.1 == k) = false := by
            cases h2 : p.1 == k
            · rfl
            · exact absurd h2 hp
          rw [if_neg hp]
          rw [lookup_cons_if]
          have hf : (k == p.1) = false :=
            beq_false_of_ne (fun hcon => by
              rw [hcon, beq_self_eq_true] at hp2
              cases hp2)
          rw [hf]
          simp only [Bool.false_eq_true, if_false]
          rcases Bool.or_eq_true_iff.mp hany with h1 | h1
          · exact absurd h1 hp
          · exact ih h1
  · rw [if_neg hany]
    rw [List.lookup_append]
    have hnone : d.lookup k = none := by
      rw [List.lookup_eq_none_iff]
      intro p hp
      rw [bne_iff_ne]
      intro hcon
      exact hany (List.any_eq_true.mpr ⟨p, hp, beq_iff_eq.mpr hcon.symm⟩)
    rw [hnone]
    simp [lookup_cons_if]

theorem mem_dictSet {β : Type} (d : List (String × β)) (k : String) (v : β)
    (y : String × β) (h : y ∈ dictSet d k v) : y = (k, v) ∨ y ∈ d := by
  rw [dictSet] at h
  by_cases hany : d.any (fun p => p.1 == k)
  · rw [if_pos hany] at h
    rcases List.mem_map.mp h with ⟨p, hp, hy⟩
    by_cases hpk : p.1 == k
    · rw [if_pos hpk] at hy
      exact Or.inl hy.symm
    · rw [if_neg hpk] at hy
      exact Or.inr (hy ▸ hp)
  · rw [if_neg hany] at h
    rcases List.mem_append.mp h with h1 | h1
    · exact Or.inr h1
    · rcases List.mem_singleton.mp h1 with h2
      exact Or.inl h2

theorem renameLearningRate_mem (d : Identifier) (y : String × IdVal)
    (h : y ∈ renameLearningRate d) :
    y ∈ d ∨ ∃ v, d.lookup "_learning_rate" = some v ∧ y = ("learning_rate", v) := by
  rw [renameLearningRate] at h
  cases hlr : d.lookup "_learning_rate" with
  | none => rw [hlr] at h; exact Or.inl h
  | some v =>
      rw [hlr] at h
      have h2 : y ∈ dictSet d "learning_rate" v :=
        List.mem_of_mem_filter h
      rcases mem_dictSet d "learning_rate" v y h2 with h3 | h3
      · exact Or.inr ⟨v, rfl, h3⟩
      · exact Or.inl h3

theorem renameLearningRate_no_private (d : Identifier) :
    (renameLearningRate d).lookup "_learning_rate" = none := by
  rw [renameLearningRate]
  cases hlr : d.lookup "_learning_rate" with
  | none => exact hlr
  | some v => exact dictDel_lookup_self _ _

theorem renameLearningRate_public (d : Identifier) (v : IdVal)
    (h : d.lookup "_learning_rate" = some v) :
    (renameLearningRate d).lookup "learning_rate" = some v := by
  rw [renameLearningRate, h]
  rw [dictDel_lookup_ne _ _ _ (by decide)]
  exact dictSet_lookup_self d "learning_rate" v

theorem readField_fst (simulation : PyInstance) :
    ∀ x y, readField simulation x = some y → y.1 = x := by
  intro x y h
  rw [readField] at h
  cases hx : pyGetattr simulation x with
  | none => rw [hx] at h; cases h
  | some v =>
      rw [hx] at h
      simp only [Option.map_some'] at h
      cases h
      rfl

/-! ### C1 and C8: the identifier builder -/

/-- A `Simulation` instance carrying one extra attribute (`executor`) that is
not an annotated dataclass field. -/
def instWithExtraAttr : PyInstance where
  cls := SimulationClass
  attrs := (mkSimInstance 0 "cpu" 32).attrs ++ [("executor", .other "<Executor>")]

/-- The identifier computed for `mkSimInstance 0 "cpu" 32`: the discovered
fields in discovery order with normalized values, with `_learning_rate`
renamed to `learning_rate` (which, being a fresh key, is appended at the
end). -/
def sampleIdentifier : Identifier :=
  [("seed", .num 0), ("device", .str "cpu"),
   ("model_factory", .str "<function mlp_factory>"),
   ("data", .str "mnist"), ("n_train", .num 100), ("n_valid", .num 50),
   ("loss_function", .str "CrossEntropyLoss()"), ("batch_size", .num 32),
   ("simulation_name", .str "Simulation"),
   ("data_factory_kwargs", .str "dict()"),
   ("model_factory_kwargs", .str "dict()"),
   ("learning_rate", .num 1)]

/-- C1, as stated, is false of the code: `seed` (and likewise `device`) is an
annotated field of the `Simulation` dataclass, so `construct_simulation_identifier`
includes it. Two instances agreeing on every declared configuration field
except `seed` (first conjunct: the attributes differ only at `seed`) give
identifiers that differ as mappings: one maps `seed` to `0`, the other to
`1`. -/
theorem c1_counterexample_identifier_depends_on_seed :
    ((mkSimInstance 1 "cuda:0" 32).attrs =
        (mkSimInstance 0 "cuda:0" 32).attrs.map
          (fun p => if p.1 = "seed" then ("seed", PyVal.num 1) else p))
    ∧ construct_simulation_identifier (mkSimInstance 0 "cuda:0" 32)
        ≠ construct_simulation_identifier (mkSimInstance 1 "cuda:0" 32)
    ∧ (construct_simulation_identifier (mkSimInstance 0 "cuda:0" 32)).map
        (fun d => d.lookup "seed") = some (some (IdVal.num 0))
    ∧ (construct_simulation_identifier (mkSimInstance 1 "cuda:0" 32)).map
        (fun d => d.lookup "seed") = some (some (IdVal.num 1)) := by
  exact ⟨by decide, by decide, by decide, by decide⟩

/-- C1 (amended): the Identifier is a pure function of the values of all
discovered declared fields -- including `seed` and `device`, which are
themselves declared fields of `Simulation`: two instances of the same class
whose attribute reads agree on every discovered field name produce equal
Identifiers (in particular the identifier is independent of attributes that
are not declared fields and of anything else about the instance). -/
theorem c1_identifier_pure_function_of_declared_fields (a b : PyInstance)
    (hcls : a.cls = b.cls)
    (hattrs : ∀ k ∈ appendIdentifiers a.cls [], pyGetattr a k = pyGetattr b k) :
    construct_simulation_identifier a = construct_simulation_identifier b := by
  rw [construct_simulation_identifier, construct_simulation_identifier]
  rw [hcls] at hattrs ⊢
  have h2 : optionMapList (readField a) (appendIdentifiers b.cls [])
      = optionMapList (readField b) (appendIdentifiers b.cls []) := by
    apply optionMapList_congr
    intro k hk
    rw [readField, readField, hattrs k hk]
  rw [h2]

theorem c1_witness :
    construct_simulation_identifier (mkSimInstance 0 "cpu" 32) =
      construct_simulation_identifier instWithExtraAttr :=
  c1_identifier_pure_function_of_declared_fields _ _ rfl (by decide)

/-- C8: every entry of a computed identifier is the normalization of some
attribute value of the simulation (numeric scalars kept as-is, everything
else replaced by its string form), under the original field name or -- only
for the `learning_rate` entry -- under the public name of the private
`_learning_rate` field; after the rename, `_learning_rate` is never a key of
the identifier, and when `_learning_rate` was discovered its value appears
under `learning_rate`. -/
theorem c8_normalization_and_rename (simulation : PyInstance) (d : Identifier)
    (h : construct_simulation_identifier simulation = some d) :
    (∀ k v, (k, v) ∈ d →
        ∃ k0 pv, pyGetattr simulation k0 = some pv ∧ v = normalizeVal pv ∧
          (k0 = k ∨ (k0 = "_learning_rate" ∧ k = "learning_rate")))
    ∧ d.lookup "_learning_rate" = none
    ∧ (∀ pv, "_learning_rate" ∈ appendIdentifiers simulation.cls [] →
        pyGetattr simulation "_learning_rate" = some pv →
        d.lookup "learning_rate" = some (normalizeVal pv)) := by
  rw [construct_simulation_identifier] at h
  cases hml : optionMapList (readField simulation)
      (appendIdentifiers simulation.cls []) with
  | none => rw [hml] at h; cases h
  | some entries =>
      rw [hml] at h
      simp only [Option.map_some', Option.some.injEq] at h
      subst h
      refine ⟨?_, renameLearningRate_no_private entries, ?_⟩
      · intro k v hkv
        have hent : (k, v) ∈ entries ∨
            ∃ v0, entries.lookup "_learning_rate" = some v0 ∧
              (k, v) = ("learning_rate", v0) :=
          renameLearningRate_mem entries (k, v) hkv
        rcases hent with hent | ⟨v0, hv0, hkv0⟩
        · rcases optionMapList_mem _ _ _ _ hml hent with ⟨k0, _, hg⟩
          rw [readField] at hg
          cases hx : pyGetattr simulation k0 with
          | none => rw [hx] at hg; cases hg
          | some pv =>
              rw [hx] at hg
              simp only [Option.map_some', Option.some.injEq, Prod.mk.injEq] at hg
              rcases hg with ⟨hk0, hv⟩
              exact ⟨k0, pv, hx, hv.symm, Or.inl hk0⟩
        · have hmem : ("_learning_rate", v0) ∈ entries :=
            lookup_mem entries _ _ hv0
          rcases optionMapList_mem _ _ _ _ hml hmem with ⟨k0, _, hg⟩
          rw [readField] at hg
          cases hx : pyGetattr simulation k0 with
          | none => rw [hx] at hg; cases hg
          | some pv =>
              rw [hx] at hg
              simp only [Option.map_some', Option.some.injEq, Prod.mk.injEq] at hg
              rcases hg with ⟨hk0, hv00⟩
              simp only [Prod.mk.injEq] at hkv0
              exact ⟨k0, pv, hx, hkv0.2.trans hv00.symm, Or.inr ⟨hk0, hkv0.1⟩⟩
      · intro pv hdisc hget
        have hlr : entries.lookup "_learning_rate" = some (normalizeVal pv) := by
          apply optionMapList_lookup (readField simulation)
            (readField_fst simulation) _ entries _ _
            (appendIdentifiers_nodup simulation.cls [] List.nodup_nil) hml
          · rw [readField, hget]
            rfl
          · exact hdisc
        exact renameLearningRate_public entries _ hlr

theorem c8_witness :
    construct_simulation_identifier (mkSimInstance 0 "cpu" 32)
        = some sampleIdentifier
    ∧ sampleIdentifier.lookup "_learning_rate" = none
    ∧ sampleIdentifier.lookup "learning_rate" = some (IdVal.num 1) :=
  ⟨by decide,
   (c8_normalization_and_rename (mkSimInstance 0 "cpu" 32) sampleIdentifier
     (by decide)).2.1,
   (c8_normalization_and_rename (mkSimInstance 0 "cpu" 32) sampleIdentifier
     (by decide)).2.2 (PyVal.num 1) (by decide) (by decide)⟩

/-! ### The Experiment orchestrator -/

/-- The observable interface of a constructed simulation: the attribute
state read by the identifier builder, and the `run` method returning the
executor history (opaque, a `Nat` here) together with the post-run
attribute state; `Except.error` models an exception escaping `run`. -/
structure SimObj where
  inst : PyInstance
  run : Nat → Except String (Nat × PyInstance)

/-- A `_SimulationFactoryBase`: calling `factory(seed, device)` constructs
a simulation (running its `__post_init__`); `Except.error` models an
exception escaping construction. -/
structure SimFactory where
  build : Int → String → Except String SimObj

/-- The `Experiment` class: a name, the ordered list of simulation
factories, and the (pure, overridable) `handle_simulation_output` method,
whose default implementation is the identity. -/
structure Experiment where
  name : String
  simulation_factories : List SimFactory
  handle_simulation_output : Nat → Nat

/-- The `epochs_per_simulation` argument of type `Union[int, List[int]]`. -/
inductive EpochsArg where
  | int (n : Nat)
  | list (l : List Nat)

/-- The shared normalization `if isinstance(epochs_per_simulation, int):
epochs_per_simulation = [epochs_per_simulation]` at the top of
`prototype_run` and `full_run`. -/
def normEpochs : EpochsArg → List Nat
  | .int n => [n]
  | .list l => l

/-- The first `n` elements produced by `itertools.cycle(ys)`: element `i`
is `ys[i % len(ys)]`; `cycle` of an empty list is immediately exhausted. -/
def cycleTake (ys : List Nat) (n : Nat) : List Nat :=
  match ys with
  | [] => []
  | y :: t => (List.range n).map (fun i => (y :: t).getD (i % (t.length + 1)) y)

/-- `zip(xs, cycle(ys))`: pairs every element of `xs` with the cycled
epoch counts (and is empty when `ys` is empty, since `zip` stops at the
exhausted iterator). -/
def zipCycle {α : Type} (xs : List α) (ys : List Nat) : List (α × Nat) :=
  xs.zip (cycleTake ys xs.length)

/-- The module-level worker `_job(simulation_factory, seed, device, epochs)`:
build the simulation, disable printing (`print_frequency = -1`, which
touches no annotated field), run it, and return
`(simulation.executor.history, seed, device)` -- the history paired with
the job's own seed and device. -/
def _job (simulation_factory : SimFactory) (seed : Int) (device : String)
    (epochs : Nat) : Except String (Nat × Int × String) :=
  match simulation_factory.build seed device with
  | .error e => .error e
  | .ok simulation =>
    match simulation.run epochs with
    | .error e => .error e
    | .ok (history, _) => .ok (history, seed, device)

/-- Mapping a fallible computation over a list, stopping at the first
raised exception. -/
def exceptMapList {α β : Type} (g : α → Except String β) :
    List α → Except String (List β)
  | [] => .ok []
  | x :: xs =>
    match g x with
    | .error e => .error e
    | .ok y =>
      match exceptMapList g xs with
      | .error e => .error e
      | .ok ys => .ok (y :: ys)

/-- The observable events of `full_run`. Pool events carry the 0-indexed
configuration number (the value of `experiment_id` for that iteration of
the configuration loop) and the pool's 0-indexed position in
`devices_list`; pools are created fresh for their configuration and never
reused, which the labelling reflects. `submit` records the argument tuples
`(seed, device, epochs)` passed to `starmap_async` (the factory, common to
all jobs, is omitted); `collect` records the output of the blocking
`result.get()`; `save` records one `save_to_disk(payload, file_path)`
call. -/
inductive Event where
  | poolCreate (cfg : Nat) (pool : Nat)
  | submit (cfg : Nat) (pool : Nat) (args : List (Int × String × Nat))
  | collect (cfg : Nat) (pool : Nat) (outs : List (Nat × Int × String))
  | poolClose (cfg : Nat) (pool : Nat)
  | poolJoin (cfg : Nat) (pool : Nat)
  | save (cfg : Nat) (payload : Identifier × List (Nat × Int × String))
      (path : String)
deriving DecidableEq, Repr

/-- The configuration an event belongs to. -/
def Event.config : Event → Nat
  | .poolCreate c _ => c
  | .submit c _ _ => c
  | .collect c _ _ => c
  | .poolClose c _ => c
  | .poolJoin c _ => c
  | .save c _ _ => c

/-- The `args` list built for the pool at position `pool_id`: one tuple
`(pool_id * n_runs_per_device + i, device, epochs)` per run index
`i in range(n_runs_per_device)`. -/
def poolArgs (n_runs_per_device pool_id : Nat) (device : String)
    (epochs : Nat) : List (Int × String × Nat) :=
  (List.range n_runs_per_device).map
    (fun i => (((pool_id * n_runs_per_device + i : Nat) : Int), device, epochs))

/-- `pool.starmap_async(_job, args).get()` for the pool at position
`pool_id`: by the multiprocessing contract, `get` returns the results of
the submitted jobs in the order of `args` (their submission order)
regardless of the order in which workers complete them, and re-raises a
failing job's exception. -/
def runBatch (f : SimFactory) (n_runs_per_device pool_id : Nat)
    (device : String) (epochs : Nat) :
    Except String (List (Nat × Int × String)) :=
  exceptMapList (fun a => _job f a.1 a.2.1 a.2.2)
    (poolArgs n_runs_per_device pool_id device epochs)

/-- The collection loop of `full_run`: for each pool in `devices_list`
order, block on that pool's `get()`, then `close` and `join` it; an
exception from `get` escapes immediately (skipping the close/join of the
failing pool and of all later pools). Returns the emitted events together
with `all_outputs` (the concatenation of the batches in device order) or
the error. -/
def collectLoop (f : SimFactory) (cfg n_runs_per_device epochs : Nat) :
    List (Nat × String) →
      List Event × Except String (List (Nat × Int × String))
  | [] => ([], .ok [])
  | (pool_id, device) :: rest =>
    match runBatch f n_runs_per_device pool_id device epochs with
    | .error e => ([], .error e)
    | .ok outs =>
      match collectLoop f cfg n_runs_per_device epochs rest with
      | (evs, res) =>
        (Event.collect cfg pool_id outs :: Event.poolClose cfg pool_id ::
            Event.poolJoin cfg pool_id :: evs,
         match res with
         | .error e => .error e
         | .ok tail => .ok (outs ++ tail))

/-- Where the output files will be saved. -/
def _outputs_prefix : String := "./outputs/"

/-- The persisted file path
`_outputs_prefix + self.name + '/experiment_' + str(experiment_id)`. -/
def savePath (name : String) (experiment_id : Nat) : String :=
  _outputs_prefix ++ name ++ "/experiment_" ++ toString experiment_id

/-- `self.construct_simulation_identifier(simulation_factory(0, torch.device('cpu')))`:
the per-configuration identifier is derived from a new disposable instance
constructed with seed 0 on the cpu device (never from an instance that was
run); a construction exception or missing declared field escapes. -/
def representativeIdentifier (f : SimFactory) : Except String Identifier :=
  match f.build 0 "cpu" with
  | .error e => .error e
  | .ok simulation =>
    match construct_simulation_identifier simulation.inst with
    | some sid => .ok sid
    | none => .error "AttributeError"

/-- The pool-creation events of one configuration: one fresh pool per
device, all created up front before any submission (`pools.append(context.Pool(...))`). -/
def poolCreateEvents (cfg : Nat) (devices_list : List String) : List Event :=
  (List.range devices_list.length).map (Event.poolCreate cfg)

/-- The submission events of one configuration: the pool at each enumerated
position receives its argument batch through `starmap_async`. -/
def submitEvents (cfg n_runs_per_device epochs : Nat)
    (devices_list : List String) : List Event :=
  devices_list.enum.map
    (fun pd =>
      Event.submit cfg pd.1 (poolArgs n_runs_per_device pd.1 pd.2 epochs))

/-- The processing step `processed_outputs.append((processed_output,
used_seed, used_device))` applied to one collected job result. -/
def processOutput (exp : Experiment) (r : Nat × Int × String) :
    Nat × Int × String :=
  (exp.handle_simulation_output r.1, r.2.1, r.2.2)

/-- One iteration of the configuration loop of `full_run` (configuration
number `cfg` = the current `experiment_id`, factory `f`, epoch count
`epochs`): create one pool per device (`context.Pool` raises `ValueError`
when `n_processes_per_device` is 0 and at least one pool is requested),
submit each pool's argument batch asynchronously, collect with blocking
barriers in device order (closing and joining each pool right after its
results arrive), process the outputs with the output handler, derive the
identifier from a representative instance, and persist the bundle.
Returns the emitted events and the escaping exception, if any. -/
def runConfig (exp : Experiment) (cfg : Nat) (f : SimFactory)
    (epochs n_runs_per_device n_processes_per_device : Nat)
    (devices_list : List String) : List Event × Option String :=
  if devices_list.length ≠ 0 ∧ n_processes_per_device = 0 then
    ([], some "ValueError: Number of processes must be at least 1")
  else
    match collectLoop f cfg n_runs_per_device epochs devices_list.enum with
    | (collEvs, .error e) =>
      (poolCreateEvents cfg devices_list
        ++ submitEvents cfg n_runs_per_device epochs devices_list
        ++ collEvs, some e)
    | (collEvs, .ok all_outputs) =>
      match representativeIdentifier f with
      | .error e =>
        (poolCreateEvents cfg devices_list
          ++ submitEvents cfg n_runs_per_device epochs devices_list
          ++ collEvs, some e)
      | .ok sid =>
        (poolCreateEvents cfg devices_list
          ++ submitEvents cfg n_runs_per_device epochs devices_list
          ++ collEvs
          ++ [Event.save cfg (sid, all_outputs.map (processOutput exp))
                (savePath exp.name cfg)],
         none)

/-- The configuration loop of `full_run`: process the zipped configurations
in order, `experiment_id` starting at `cfg0` and incrementing once per
configuration (not per job); the first escaping exception aborts the
loop. -/
def fullRunGo (exp : Experiment)
    (n_runs_per_device n_processes_per_device : Nat)
    (devices_list : List String) :
    List (SimFactory × Nat) → Nat → List Event × Option String
  | [], _ => ([], none)
  | (f, epochs) :: rest, cfg0 =>
    match runConfig exp cfg0 f epochs n_runs_per_device
        n_processes_per_device devices_list with
    | (evs, none) =>
      match fullRunGo exp n_runs_per_device n_processes_per_device
          devices_list rest (cfg0 + 1) with
      | (evs2, res) => (evs ++ evs2, res)
    | (evs, some e) => (evs, some e)

/-- `Experiment.full_run`: normalize `epochs_per_simulation`, zip the
factories with the cycled epoch counts, and run the configuration loop
with `experiment_id = 0`. (The `set_sharing_strategy` and spawn-context
calls configure the multiprocessing library and have no further
observable effect here.) Returns the trace of observable events together
with the escaping exception, if any. -/
def full_run (exp : Experiment)
    (n_runs_per_device n_processes_per_device : Nat)
    (devices_list : List String) (epochs_per_simulation : EpochsArg) :
    List Event × Option String :=
  fullRunGo exp n_runs_per_device n_processes_per_device devices_list
    (zipCycle exp.simulation_factories (normEpochs epochs_per_simulation)) 0

/-- Modelled from the spec: `HashableDict` (defined in
`rprml/utils/hashable_dict.py`, which is not among the sources here) is an
immutable, order-insensitive hashable mapping "suitable for use as a
dictionary key and for structural equality between configurations,
independent of field declaration order": two identifiers are the same
dictionary key exactly when they agree as mappings. -/
def identKeyEq (a b : Identifier) : Bool :=
  a.all (fun kv => b.lookup kv.1 == some kv.2) &&
    b.all (fun kv => a.lookup kv.1 == some kv.2)

/-- Python `results[sid] = result` on a dictionary keyed by `HashableDict`
identifiers: an existing key keeps its position (and its originally
inserted key object) and gets the new value; a new key is appended at the
end. -/
def resultsSet (d : List (Identifier × Nat)) (sid : Identifier) (r : Nat) :
    List (Identifier × Nat) :=
  if d.any (fun p => identKeyEq p.1 sid) then
    d.map (fun p => if identKeyEq p.1 sid then (p.1, r) else p)
  else d ++ [(sid, r)]

/-- The identifier that `prototype_run` computes for one configuration:
construct with the supplied seed and device, run for the epoch count, then
apply the identifier builder to the instance that was run; `none` when
construction, run, or identifier derivation raises. -/
def protoIdent (f : SimFactory) (seed : Int) (device : String)
    (epochs : Nat) : Option Identifier :=
  match f.build seed device with
  | .error _ => none
  | .ok simulation =>
    match simulation.run epochs with
    | .error _ => none
    | .ok (_, instAfter) => construct_simulation_identifier instAfter

/-- The loop of `prototype_run` over the zipped configurations, carrying
the `results` dictionary. -/
def prototypeGo (exp : Experiment) (seed : Int) (device : String) :
    List (SimFactory × Nat) → List (Identifier × Nat) →
      Except String (List (Identifier × Nat))
  | [], results => .ok results
  | (f, epochs) :: rest, results =>
    match f.build seed device with
    | .error e => .error e
    | .ok simulation =>
      match simulation.run epochs with
      | .error e => .error e
      | .ok (history, instAfter) =>
        match construct_simulation_identifier instAfter with
        | none => .error "AttributeError"
        | some sid =>
          prototypeGo exp seed device rest
            (resultsSet results sid (exp.handle_simulation_output history))

/-- `Experiment.prototype_run`: for each configuration in the sweep,
synchronously build one simulation with the given seed and device, run it
for the (cycled) epoch count, derive the identifier from the run instance,
apply the output handler and store the result under the identifier;
returns the result dictionary (insertion-ordered) or the first escaping
exception. -/
def prototype_run (exp : Experiment) (seed : Int) (device : String)
    (epochs_per_simulation : EpochsArg) :
    Except String (List (Identifier × Nat)) :=
  prototypeGo exp seed device
    (zipCycle exp.simulation_factories (normEpochs epochs_per_simulation)) []

/-! ### Cycling lemmas and concrete fixtures -/

theorem cycleTake_length (ys : List Nat) (n : Nat) (hys : ys ≠ []) :
    (cycleTake ys n).length = n := by
  match ys with
  | [] => exact absurd rfl hys
  | y :: t => simp [cycleTake]

theorem cycleTake_getElem? (ys : List Nat) (n j : Nat) (hys : ys ≠ [])
    (hj : j < n) :
    (cycleTake ys n)[j]? = ys[j % ys.length]? := by
  match ys with
  | [] => exact absurd rfl hys
  | y :: t =>
      rw [cycleTake, List.getElem?_map, List.getElem?_range hj,
        Option.map_some']
      have hlt : j % (t.length + 1) < (y :: t).length := by
        simp only [List.length_cons]
        exact Nat.mod_lt _ (Nat.succ_pos _)
      simp only [List.length_cons]
      rw [List.getElem?_eq_getElem hlt]
      rw [List.getD_eq_getElem?_getD, List.getElem?_eq_getElem hlt]
      rfl

theorem zipCycle_getElem? {α : Type} (xs : List α) (ys : List Nat)
    (j : Nat) (f : α) (ep : Nat)
    (h : (zipCycle xs ys)[j]? = some (f, ep)) :
    xs[j]? = some f ∧ ys ≠ [] ∧ ys[j % ys.length]? = some ep := by
  rw [zipCycle] at h
  rcases List.getElem?_zip_eq_some.mp h with ⟨hx, hy⟩
  have hys : ys ≠ [] := by
    intro hcon
    subst hcon
    rw [cycleTake] at hy
    cases hy.symm.trans (List.getElem?_nil)
  have hj : j < xs.length := by
    have := List.getElem?_eq_some_iff.mp hy
    rcases this with ⟨hlt, _⟩
    rwa [cycleTake_length ys xs.length hys] at hlt
  refine ⟨hx, hys, ?_⟩
  rw [← cycleTake_getElem? ys xs.length j hys hj]
  exact hy

theorem zipCycle_length {α : Type} (xs : List α) (ys : List Nat)
    (hys : ys ≠ []) : (zipCycle xs ys).length = xs.length := by
  rw [zipCycle, List.length_zip, cycleTake_length ys xs.length hys,
    Nat.min_self]

/-- A concrete simulation factory whose instances carry the given batch
size and whose `run` method returns the epoch count as the history (so
that the epoch count actually used is observable in the results). -/
def probeFactory (bs : Int) : SimFactory where
  build := fun seed device => .ok
    { inst := mkSimInstance seed device bs
      run := fun epochs => .ok (epochs, mkSimInstance seed device bs) }

/-- A concrete experiment with three configurations that differ in batch
size (hence have pairwise different identifiers). -/
def probeExp : Experiment where
  name := "probe"
  simulation_factories := [probeFactory 1, probeFactory 2, probeFactory 3]
  handle_simulation_output := id

/-- A concrete experiment whose two configurations are identical, so both
produce the same identifier. -/
def dupExp : Experiment where
  name := "dup"
  simulation_factories := [probeFactory 1, probeFactory 1]
  handle_simulation_output := id

/-! ### C6 and C10: epoch-count handling -/

/-- C6: epoch counts are assigned by cycling the supplied list from its
start: in general the `j`-th configuration of the zipped sweep receives
`epochs_per_simulation[j % len]`, and concretely 3 configurations with
`epochs_per_simulation = [5, 2]` receive epoch counts 5, 2, 5 -- observed
in the result values of `prototype_run` (the probe history is the epoch
count) and in the submitted job arguments of `full_run`. -/
theorem c6_epoch_cycling :
    (∀ (xs : List SimFactory) (ys : List Nat) (j : Nat) (f : SimFactory)
        (ep : Nat), (zipCycle xs ys)[j]? = some (f, ep) →
        ys[j % ys.length]? = some ep)
    ∧ ((prototype_run probeExp 0 "cpu" (.list [5, 2])).map
        (fun res => res.map Prod.snd) = .ok [5, 2, 5])
    ∧ ((full_run probeExp 1 1 ["A"] (.list [5, 2])).1.filterMap
        (fun e => match e with
          | .submit _ _ args => some (args.map (fun a => a.2.2))
          | _ => none)).flatten = [5, 2, 5] := by
  refine ⟨?_, by rfl, by rfl⟩
  intro xs ys j f ep h
  exact (zipCycle_getElem? xs ys j f ep h).2.2

theorem c6_witness :
    (zipCycle probeExp.simulation_factories [5, 2])[2]?
        = some (probeFactory 3, 5)
    ∧ ([5, 2] : List Nat)[2 % 2]? = some 5 :=
  ⟨rfl, c6_epoch_cycling.1 probeExp.simulation_factories [5, 2] 2
    (probeFactory 3) 5 rfl⟩

/-- C10: an integer `epochs_per_simulation` is treated as the one-element
list `[epochs_per_simulation]`: `full_run` and `prototype_run` behave
identically on `.int e` and `.list [e]`, and every configuration of the
sweep receives epoch count `e`. -/
theorem c10_int_epochs_as_singleton (exp : Experiment)
    (n_runs_per_device n_processes_per_device : Nat)
    (devices_list : List String) (seed : Int) (device : String) (e : Nat) :
    full_run exp n_runs_per_device n_processes_per_device devices_list
        (.int e)
      = full_run exp n_runs_per_device n_processes_per_device devices_list
        (.list [e])
    ∧ prototype_run exp seed device (.int e)
      = prototype_run exp seed device (.list [e])
    ∧ ∀ (j : Nat) (f : SimFactory) (ep : Nat),
        (zipCycle exp.simulation_factories (normEpochs (.int e)))[j]?
          = some (f, ep) → ep = e := by
  refine ⟨rfl, rfl, ?_⟩
  intro j f ep h
  have h2 := (zipCycle_getElem? _ _ j f ep h).2.2
  have : (normEpochs (.int e)) = [e] := rfl
  rw [this] at h2
  have hlen : ([e] : List Nat).length = 1 := rfl
  rw [hlen, Nat.mod_one] at h2
  simp at h2
  exact h2.symm

theorem c10_witness :
    full_run probeExp 1 1 ["A"] (.int 5)
        = full_run probeExp 1 1 ["A"] (.list [5])
    ∧ (zipCycle probeExp.simulation_factories (normEpochs (.int 5)))[1]?
        = some (probeFactory 2, 5)
    ∧ (5 : Nat) = 5 :=
  ⟨(c10_int_epochs_as_singleton probeExp 1 1 ["A"] 0 "cpu" 5).1, rfl,
   (c10_int_epochs_as_singleton probeExp 1 1 ["A"] 0 "cpu" 5).2.2 1
     (probeFactory 2) 5 rfl⟩

/-! ### Structure of the collection loop -/

theorem exceptMapList_error_of_mem {α β : Type} (g : α → Except String β) :
    ∀ (l : List α) (x : α) (e1 : String), x ∈ l → g x = .error e1 →
      ∃ e2, exceptMapList g l = .error e2 := by
  intro l
  induction l with
  | nil => intro x e1 hx _; cases hx
  | cons a rest ih =>
      intro x e1 hx hgx
      rw [exceptMapList]
      cases ha : g a with
      | error e => exact ⟨e, rfl⟩
      | ok y =>
          rcases List.mem_cons.mp hx with hx0 | hx1
          · subst hx0
            rw [hgx] at ha
            cases ha
          · rcases ih x e1 hx1 hgx with ⟨e2, he2⟩
            rw [he2]
            exact ⟨e2, rfl⟩

theorem collectLoop_cons_error (f : SimFactory) (cfg R ep pool_id : Nat)
    (device : String) (rest : List (Nat × String)) (e : String)
    (hb : runBatch f R pool_id device ep = .error e) :
    collectLoop f cfg R ep ((pool_id, device) :: rest) = ([], .error e) := by
  rw [collectLoop, hb]

theorem collectLoop_cons_ok (f : SimFactory) (cfg R ep pool_id : Nat)
    (device : String) (rest : List (Nat × String))
    (outs : List (Nat × Int × String))
    (hb : runBatch f R pool_id device ep = .ok outs) :
    collectLoop f cfg R ep ((pool_id, device) :: rest)
      = (Event.collect cfg pool_id outs :: Event.poolClose cfg pool_id ::
          Event.poolJoin cfg pool_id :: (collectLoop f cfg R ep rest).1,
         match (collectLoop f cfg R ep rest).2 with
         | .error e => .error e
         | .ok tail => .ok (outs ++ tail)) := by
  rw [collectLoop, hb]

theorem collectLoop_events (f : SimFactory) (cfg R ep : Nat) :
    ∀ (l : List (Nat × String)) (e : Event),
      e ∈ (collectLoop f cfg R ep l).1 →
      ∃ p, (∃ d, (p, d) ∈ l) ∧
        ((∃ outs, e = .collect cfg p outs) ∨ e = .poolClose cfg p ∨
          e = .poolJoin cfg p) := by
  intro l
  induction l with
  | nil => intro e he; cases he
  | cons pd rest ih =>
      intro e he
      match pd with
      | (pool_id, device) =>
        rw [collectLoop] at he
        cases hb : runBatch f R pool_id device ep with
        | error e1 => rw [hb] at he; cases he
        | ok outs =>
            rw [hb] at he
            rcases hrest : collectLoop f cfg R ep rest with ⟨evs, res⟩
            rw [hrest] at he
            simp only [List.mem_cons] at he
            rcases he with he | he | he | he
            · exact ⟨pool_id, ⟨device, List.mem_cons_self _ _⟩,
                Or.inl ⟨outs, he⟩⟩
            · exact ⟨pool_id, ⟨device, List.mem_cons_self _ _⟩,
                Or.inr (Or.inl he)⟩
            · exact ⟨pool_id, ⟨device, List.mem_cons_self _ _⟩,
                Or.inr (Or.inr he)⟩
            · have he2 : e ∈ (collectLoop f cfg R ep rest).1 := by
                rw [hrest]
                exact he
              rcases ih e he2 with ⟨p, ⟨d, hd⟩, hshape⟩
              exact ⟨p, ⟨d, List.mem_cons_of_mem _ hd⟩, hshape⟩

theorem collectLoop_ok_mem (f : SimFactory) (cfg R ep : Nat) :
    ∀ (l : List (Nat × String)) (allOuts : List (Nat × Int × String)),
      (collectLoop f cfg R ep l).2 = .ok allOuts →
      ∀ pd ∈ l, ∃ bouts, runBatch f R pd.1 pd.2 ep = .ok bouts ∧
        Event.collect cfg pd.1 bouts ∈ (collectLoop f cfg R ep l).1 ∧
        Event.poolClose cfg pd.1 ∈ (collectLoop f cfg R ep l).1 ∧
        Event.poolJoin cfg pd.1 ∈ (collectLoop f cfg R ep l).1 := by
  intro l
  induction l with
  | nil => intro allOuts _ pd hpd; cases hpd
  | cons hd rest ih =>
      intro allOuts hok pd hpd
      match hd with
      | (pool_id, device) =>
        cases hb : runBatch f R pool_id device ep with
        | error e1 =>
            rw [collectLoop_cons_error f cfg R ep pool_id device rest e1 hb]
              at hok
            cases hok
        | ok outs =>
            rw [collectLoop_cons_ok f cfg R ep pool_id device rest outs hb]
              at hok ⊢
            cases hres : (collectLoop f cfg R ep rest).2 with
            | error e1 => rw [hres] at hok; cases hok
            | ok tail =>
                rw [hres] at hok
                rcases List.mem_cons.mp hpd with hpd0 | hpd1
                · subst hpd0
                  exact ⟨outs, hb, List.mem_cons_self _ _,
                    List.mem_cons_of_mem _ (List.mem_cons_self _ _),
                    List.mem_cons_of_mem _ (List.mem_cons_of_mem _
                      (List.mem_cons_self _ _))⟩
                · rcases ih tail hres pd hpd1 with
                    ⟨bouts, hbouts, hc, hcl, hj⟩
                  exact ⟨bouts, hbouts,
                    List.mem_cons_of_mem _ (List.mem_cons_of_mem _
                      (List.mem_cons_of_mem _ hc)),
                    List.mem_cons_of_mem _ (List.mem_cons_of_mem _
                      (List.mem_cons_of_mem _ hcl)),
                    List.mem_cons_of_mem _ (List.mem_cons_of_mem _
                      (List.mem_cons_of_mem _ hj))⟩

theorem collectLoop_collect_close (f : SimFactory) (cfg R ep : Nat) :
    ∀ (l : List (Nat × String)) (p : Nat) (outs : List (Nat × Int × String)),
      Event.collect cfg p outs ∈ (collectLoop f cfg R ep l).1 →
      Event.poolClose cfg p ∈ (collectLoop f cfg R ep l).1 ∧
        Event.poolJoin cfg p ∈ (collectLoop f cfg R ep l).1 := by
  intro l
  induction l with
  | nil => intro p outs he; cases he
  | cons hd rest ih =>
      intro p outs he
      match hd with
      | (pool_id, device) =>
        cases hb : runBatch f R pool_id device ep with
        | error e1 =>
            rw [collectLoop_cons_error f cfg R ep pool_id device rest e1 hb]
              at he
            cases he
        | ok bouts =>
            rw [collectLoop_cons_ok f cfg R ep pool_id device rest bouts hb]
              at he ⊢
            simp only [List.mem_cons] at he ⊢
            rcases he with he | he | he | he
            · have hp : p = pool_id := by
                cases he
                rfl
              subst hp
              exact ⟨Or.inr (Or.inl rfl), Or.inr (Or.inr (Or.inl rfl))⟩
            · cases he
            · cases he
            · rcases ih p outs he with ⟨hcl, hj⟩
              exact ⟨Or.inr (Or.inr (Or.inr hcl)),
                Or.inr (Or.inr (Or.inr hj))⟩

theorem collectLoop_ok_flatten (f : SimFactory) (cfg R ep : Nat) :
    ∀ (l : List (Nat × String)) (allOuts : List (Nat × Int × String)),
      (collectLoop f cfg R ep l).2 = .ok allOuts →
      ∃ segs, exceptMapList (fun pd => runBatch f R pd.1 pd.2 ep) l = .ok segs
        ∧ allOuts = segs.flatten := by
  intro l
  induction l with
  | nil =>
      intro allOuts hok
      simp only [collectLoop] at hok
      cases hok
      exact ⟨[], rfl, rfl⟩
  | cons hd rest ih =>
      intro allOuts hok
      match hd with
      | (pool_id, device) =>
        rw [exceptMapList]
        cases hb : runBatch f R pool_id device ep with
        | error e1 =>
            rw [collectLoop_cons_error f cfg R ep pool_id device rest e1 hb]
              at hok
            cases hok
        | ok outs =>
            rw [collectLoop_cons_ok f cfg R ep pool_id device rest outs hb]
              at hok
            cases hres : (collectLoop f cfg R ep rest).2 with
            | error e1 => rw [hres] at hok; cases hok
            | ok tail =>
                rw [hres] at hok
                cases hok
                rcases ih tail hres with ⟨segs, hsegs, hflat⟩
                rw [hsegs]
                exact ⟨outs :: segs, rfl, by rw [List.flatten_cons, hflat]⟩

theorem collectLoop_error_of_batch (f : SimFactory) (cfg R ep : Nat) :
    ∀ (l : List (Nat × String)) (pd : Nat × String) (e1 : String),
      pd ∈ l → runBatch f R pd.1 pd.2 ep = .error e1 →
      ∃ e2, (collectLoop f cfg R ep l).2 = .error e2 := by
  intro l
  induction l with
  | nil => intro pd e1 hpd _; cases hpd
  | cons hd rest ih =>
      intro pd e1 hpd hbpd
      match hd with
      | (pool_id, device) =>
        cases hb : runBatch f R pool_id device ep with
        | error e =>
            rw [collectLoop_cons_error f cfg R ep pool_id device rest e hb]
            exact ⟨e, rfl⟩
        | ok outs =>
            rcases List.mem_cons.mp hpd with hpd0 | hpd1
            · subst hpd0
              rw [hbpd] at hb
              cases hb
            · rcases ih pd e1 hpd1 hbpd with ⟨e2, he2⟩
              rw [collectLoop_cons_ok f cfg R ep pool_id device rest outs hb]
              rw [he2]
              exact ⟨e2, rfl⟩

/-- The events of one configuration up to (and without) its save event. -/
def configBaseEvents (cfg R ep : Nat) (f : SimFactory) (ds : List String) :
    List Event :=
  poolCreateEvents cfg ds ++ submitEvents cfg R ep ds
    ++ (collectLoop f cfg R ep ds.enum).1

theorem runConfig_valueError (exp : Experiment) (cfg : Nat) (f : SimFactory)
    (ep R nP : Nat) (ds : List String) (h : ds.length ≠ 0 ∧ nP = 0) :
    runConfig exp cfg f ep R nP ds
      = ([], some "ValueError: Number of processes must be at least 1") := by
  rw [runConfig, if_pos h]

theorem runConfig_collect_error (exp : Experiment) (cfg : Nat)
    (f : SimFactory) (ep R nP : Nat) (ds : List String) (e : String)
    (h : ¬(ds.length ≠ 0 ∧ nP = 0))
    (he : (collectLoop f cfg R ep ds.enum).2 = .error e) :
    runConfig exp cfg f ep R nP ds = (configBaseEvents cfg R ep f ds, some e) := by
  rw [runConfig, if_neg h]
  rcases hcl : collectLoop f cfg R ep ds.enum with ⟨collEvs, res⟩
  rw [hcl] at he
  simp only [] at he
  subst he
  rw [configBaseEvents, hcl]

theorem runConfig_ident_error (exp : Experiment) (cfg : Nat)
    (f : SimFactory) (ep R nP : Nat) (ds : List String) (e : String)
    (allOuts : List (Nat × Int × String))
    (h : ¬(ds.length ≠ 0 ∧ nP = 0))
    (hok : (collectLoop f cfg R ep ds.enum).2 = .ok allOuts)
    (hre : representativeIdentifier f = .error e) :
    runConfig exp cfg f ep R nP ds = (configBaseEvents cfg R ep f ds, some e) := by
  rw [runConfig, if_neg h]
  rcases hcl : collectLoop f cfg R ep ds.enum with ⟨collEvs, res⟩
  rw [hcl] at hok
  simp only [] at hok
  subst hok
  rw [hre]
  rw [configBaseEvents, hcl]

theorem runConfig_success (exp : Experiment) (cfg : Nat)
    (f : SimFactory) (ep R nP : Nat) (ds : List String) (sid : Identifier)
    (allOuts : List (Nat × Int × String))
    (h : ¬(ds.length ≠ 0 ∧ nP = 0))
    (hok : (collectLoop f cfg R ep ds.enum).2 = .ok allOuts)
    (hre : representativeIdentifier f = .ok sid) :
    runConfig exp cfg f ep R nP ds
      = (configBaseEvents cfg R ep f ds
          ++ [Event.save cfg (sid, allOuts.map (processOutput exp))
                (savePath exp.name cfg)], none) := by
  rw [runConfig, if_neg h]
  rcases hcl : collectLoop f cfg R ep ds.enum with ⟨collEvs, res⟩
  rw [hcl] at hok
  simp only [] at hok
  subst hok
  rw [hre]
  rw [configBaseEvents, hcl]

theorem mem_poolCreateEvents (cfg : Nat) (ds : List String) (e : Event)
    (he : e ∈ poolCreateEvents cfg ds) :
    ∃ p, p < ds.length ∧ e = .poolCreate cfg p := by
  rw [poolCreateEvents] at he
  rcases List.mem_map.mp he with ⟨p, hp, hpe⟩
  exact ⟨p, List.mem_range.mp hp, hpe.symm⟩

theorem mem_poolCreateEvents_intro (cfg : Nat) (ds : List String) (p : Nat)
    (hp : p < ds.length) : Event.poolCreate cfg p ∈ poolCreateEvents cfg ds := by
  rw [poolCreateEvents]
  exact List.mem_map.mpr ⟨p, List.mem_range.mpr hp, rfl⟩

theorem mem_submitEvents_elim (cfg R ep : Nat) (ds : List String)
    (c p : Nat) (args : List (Int × String × Nat))
    (he : Event.submit c p args ∈ submitEvents cfg R ep ds) :
    c = cfg ∧ ∃ d, (p, d) ∈ ds.enum ∧ args = poolArgs R p d ep := by
  rw [submitEvents] at he
  rcases List.mem_map.mp he with ⟨pd, hpd, hpe⟩
  have h1 : c = cfg ∧ p = pd.1 ∧ args = poolArgs R pd.1 pd.2 ep := by
    cases hpe
    exact ⟨rfl, rfl, rfl⟩
  rcases h1 with ⟨hc, hp, hargs⟩
  subst hp
  exact ⟨hc, pd.2, by rwa [Prod.mk.eta], hargs⟩

/-- Every event of the pre-save part of a configuration block is a
create, submit, collect, close or join event of that configuration, with
its pool position among the enumerated devices. -/
theorem configBaseEvents_shape (cfg R ep : Nat) (f : SimFactory)
    (ds : List String) (e : Event) (he : e ∈ configBaseEvents cfg R ep f ds) :
    (∃ p, p < ds.length ∧ e = .poolCreate cfg p)
    ∨ (∃ p d args, (p, d) ∈ ds.enum ∧ e = .submit cfg p args)
    ∨ (∃ p d, (p, d) ∈ ds.enum ∧
        ((∃ outs, e = .collect cfg p outs) ∨ e = .poolClose cfg p ∨
          e = .poolJoin cfg p)) := by
  rw [configBaseEvents] at he
  rcases List.mem_append.mp he with he | he
  · rcases List.mem_append.mp he with he | he
    · exact Or.inl (mem_poolCreateEvents cfg ds e he)
    · rw [submitEvents] at he
      rcases List.mem_map.mp he with ⟨pd, hpd, hpe⟩
      refine Or.inr (Or.inl ⟨pd.1, pd.2, poolArgs R pd.1 pd.2 ep, ?_, hpe.symm⟩)
      rwa [Prod.mk.eta]
  · rcases collectLoop_events f cfg R ep ds.enum e he with ⟨p, ⟨d, hd⟩, hshape⟩
    exact Or.inr (Or.inr ⟨p, d, hd, hshape⟩)

theorem collectLoop_snd_indep (f : SimFactory) (cfg cfg2 R ep : Nat) :
    ∀ (l : List (Nat × String)),
      (collectLoop f cfg R ep l).2 = (collectLoop f cfg2 R ep l).2 := by
  intro l
  induction l with
  | nil => rfl
  | cons hd rest ih =>
      match hd with
      | (pool_id, device) =>
        cases hb : runBatch f R pool_id device ep with
        | error e1 =>
            rw [collectLoop_cons_error f cfg R ep pool_id device rest e1 hb,
              collectLoop_cons_error f cfg2 R ep pool_id device rest e1 hb]
        | ok outs =>
            rw [collectLoop_cons_ok f cfg R ep pool_id device rest outs hb,
              collectLoop_cons_ok f cfg2 R ep pool_id device rest outs hb]
            simp only []
            rw [ih]

/-- Case analysis on an event of one configuration block: it is either a
pre-save event or the save event of a successful configuration. -/
theorem runConfig_mem_cases (exp : Experiment) (cfg : Nat) (f : SimFactory)
    (ep R nP : Nat) (ds : List String) (e : Event)
    (he : e ∈ (runConfig exp cfg f ep R nP ds).1) :
    e ∈ configBaseEvents cfg R ep f ds
    ∨ ∃ allOuts sid, (collectLoop f cfg R ep ds.enum).2 = .ok allOuts ∧
        representativeIdentifier f = .ok sid ∧
        e = Event.save cfg (sid, allOuts.map (processOutput exp))
              (savePath exp.name cfg) ∧
        (runConfig exp cfg f ep R nP ds).2 = none := by
  by_cases hbr : ds.length ≠ 0 ∧ nP = 0
  · rw [runConfig_valueError exp cfg f ep R nP ds hbr] at he
    cases he
  · cases hres : (collectLoop f cfg R ep ds.enum).2 with
    | error e1 =>
        rw [runConfig_collect_error exp cfg f ep R nP ds e1 hbr hres] at he
        exact Or.inl he
    | ok allOuts =>
        cases hri : representativeIdentifier f with
        | error e1 =>
            rw [runConfig_ident_error exp cfg f ep R nP ds e1 allOuts hbr
              hres hri] at he
            exact Or.inl he
        | ok sid =>
            rw [runConfig_success exp cfg f ep R nP ds sid allOuts hbr hres
              hri] at he
            rcases List.mem_append.mp he with he | he
            · exact Or.inl he
            · refine Or.inr ⟨allOuts, sid, rfl, rfl,
                List.mem_singleton.mp he, ?_⟩
              rw [runConfig_success exp cfg f ep R nP ds sid allOuts hbr
                hres hri]

theorem runConfig_config (exp : Experiment) (cfg : Nat) (f : SimFactory)
    (ep R nP : Nat) (ds : List String) :
    ∀ e ∈ (runConfig exp cfg f ep R nP ds).1, e.config = cfg := by
  intro e he
  rcases runConfig_mem_cases exp cfg f ep R nP ds e he with he | ⟨_, _, _, _, he, _⟩
  · rcases configBaseEvents_shape cfg R ep f ds e he with
      ⟨p, _, he⟩ | ⟨p, d, args, _, he⟩ | ⟨p, d, _, hsh⟩
    · rw [he]; rfl
    · rw [he]; rfl
    · rcases hsh with ⟨outs, he⟩ | he | he <;> (rw [he]; rfl)
  · rw [he]; rfl

theorem runConfig_save_elim (exp : Experiment) (cfg : Nat) (f : SimFactory)
    (ep R nP : Nat) (ds : List String) (c : Nat)
    (x : Identifier × List (Nat × Int × String)) (path : String)
    (he : Event.save c x path ∈ (runConfig exp cfg f ep R nP ds).1) :
    (runConfig exp cfg f ep R nP ds).2 = none ∧ c = cfg ∧
    ∃ allOuts sid, (collectLoop f cfg R ep ds.enum).2 = .ok allOuts ∧
      representativeIdentifier f = .ok sid ∧
      x = (sid, allOuts.map (processOutput exp)) ∧
      path = savePath exp.name cfg := by
  rcases runConfig_mem_cases exp cfg f ep R nP ds _ he with
    hb | ⟨allOuts, sid, hres, hri, heq, h2⟩
  · rcases configBaseEvents_shape cfg R ep f ds _ hb with
      ⟨p, _, h⟩ | ⟨p, d, args, _, h⟩ | ⟨p, d, _, hsh⟩
    · cases h
    · cases h
    · rcases hsh with ⟨outs, h⟩ | h | h <;> cases h
  · simp only [Event.save.injEq] at heq
    rcases heq with ⟨hc, hx, hpath⟩
    exact ⟨h2, hc, allOuts, sid, hres, hri, hx, hpath⟩

theorem runConfig_submit_elim (exp : Experiment) (cfg : Nat) (f : SimFactory)
    (ep R nP : Nat) (ds : List String) (c p : Nat)
    (args : List (Int × String × Nat))
    (he : Event.submit c p args ∈ (runConfig exp cfg f ep R nP ds).1) :
    c = cfg ∧ ∃ d, (p, d) ∈ ds.enum ∧ args = poolArgs R p d ep := by
  rcases runConfig_mem_cases exp cfg f ep R nP ds _ he with
    hb | ⟨allOuts, sid, _, _, heq, _⟩
  · rw [configBaseEvents] at hb
    rcases List.mem_append.mp hb with hb | hb
    · rcases List.mem_append.mp hb with hb | hb
      · rcases mem_poolCreateEvents cfg ds _ hb with ⟨p2, _, h⟩
        cases h
      · exact mem_submitEvents_elim cfg R ep ds c p args hb
    · rcases collectLoop_events f cfg R ep ds.enum _ hb with ⟨p2, _, hsh⟩
      rcases hsh with ⟨outs, h⟩ | h | h <;> cases h
  · cases heq

theorem runConfig_ok_events (exp : Experiment) (cfg : Nat) (f : SimFactory)
    (ep R nP : Nat) (ds : List String)
    (h : (runConfig exp cfg f ep R nP ds).2 = none) :
    ∃ allOuts sid, (collectLoop f cfg R ep ds.enum).2 = .ok allOuts ∧
      representativeIdentifier f = .ok sid ∧
      (runConfig exp cfg f ep R nP ds).1
        = configBaseEvents cfg R ep f ds
            ++ [Event.save cfg (sid, allOuts.map (processOutput exp))
                  (savePath exp.name cfg)] := by
  by_cases hbr : ds.length ≠ 0 ∧ nP = 0
  · rw [runConfig_valueError exp cfg f ep R nP ds hbr] at h
    cases h
  · cases hres : (collectLoop f cfg R ep ds.enum).2 with
    | error e1 =>
        rw [runConfig_collect_error exp cfg f ep R nP ds e1 hbr hres] at h
        cases h
    | ok allOuts =>
        cases hri : representativeIdentifier f with
        | error e1 =>
            rw [runConfig_ident_error exp cfg f ep R nP ds e1 allOuts hbr
              hres hri] at h
            cases h
        | ok sid =>
            refine ⟨allOuts, sid, rfl, rfl, ?_⟩
            rw [runConfig_success exp cfg f ep R nP ds sid allOuts hbr
              hres hri]

/-! ### Structure of the configuration loop -/

theorem fullRunGo_cons (exp : Experiment) (R nP : Nat) (ds : List String)
    (f : SimFactory) (ep : Nat) (rest : List (SimFactory × Nat)) (i : Nat) :
    fullRunGo exp R nP ds ((f, ep) :: rest) i
      = match (runConfig exp i f ep R nP ds).2 with
        | none =>
          ((runConfig exp i f ep R nP ds).1
              ++ (fullRunGo exp R nP ds rest (i + 1)).1,
            (fullRunGo exp R nP ds rest (i + 1)).2)
        | some e => ((runConfig exp i f ep R nP ds).1, some e) := by
  rw [fullRunGo]
  rcases h : runConfig exp i f ep R nP ds with ⟨evs, res⟩
  cases res with
  | none =>
      rcases h2 : fullRunGo exp R nP ds rest (i + 1) with ⟨evs2, res2⟩
      rfl
  | some e => rfl

theorem fullRunGo_cons_error (exp : Experiment) (R nP : Nat)
    (ds : List String) (f : SimFactory) (ep : Nat)
    (rest : List (SimFactory × Nat)) (i : Nat) (e : String)
    (h : (runConfig exp i f ep R nP ds).2 = some e) :
    fullRunGo exp R nP ds ((f, ep) :: rest) i
      = ((runConfig exp i f ep R nP ds).1, some e) := by
  rw [fullRunGo_cons, h]

theorem fullRunGo_cons_ok (exp : Experiment) (R nP : Nat)
    (ds : List String) (f : SimFactory) (ep : Nat)
    (rest : List (SimFactory × Nat)) (i : Nat)
    (h : (runConfig exp i f ep R nP ds).2 = none) :
    fullRunGo exp R nP ds ((f, ep) :: rest) i
      = ((runConfig exp i f ep R nP ds).1
            ++ (fullRunGo exp R nP ds rest (i + 1)).1,
          (fullRunGo exp R nP ds rest (i + 1)).2) := by
  rw [fullRunGo_cons, h]

theorem fullRunGo_config_ge (exp : Experiment) (R nP : Nat)
    (ds : List String) :
    ∀ (configs : List (SimFactory × Nat)) (i : Nat) (e : Event),
      e ∈ (fullRunGo exp R nP ds configs i).1 → i ≤ e.config := by
  intro configs
  induction configs with
  | nil => intro i e he; cases he
  | cons hd rest ih =>
      intro i e he
      match hd with
      | (f, ep) =>
        cases hres : (runConfig exp i f ep R nP ds).2 with
        | some e1 =>
            rw [fullRunGo_cons_error exp R nP ds f ep rest i e1 hres] at he
            rw [runConfig_config exp i f ep R nP ds e he]
        | none =>
            rw [fullRunGo_cons_ok exp R nP ds f ep rest i hres] at he
            rcases List.mem_append.mp he with he | he
            · rw [runConfig_config exp i f ep R nP ds e he]
            · exact Nat.le_of_succ_le (ih (i + 1) e he)

theorem fullRunGo_mem (exp : Experiment) (R nP : Nat) (ds : List String) :
    ∀ (configs : List (SimFactory × Nat)) (i : Nat) (e : Event),
      e ∈ (fullRunGo exp R nP ds configs i).1 →
      ∃ j f ep, configs[j]? = some (f, ep) ∧
        e ∈ (runConfig exp (i + j) f ep R nP ds).1 ∧
        ∀ j2 f2 ep2, j2 < j → configs[j2]? = some (f2, ep2) →
          (runConfig exp (i + j2) f2 ep2 R nP ds).2 = none := by
  intro configs
  induction configs with
  | nil => intro i e he; cases he
  | cons hd rest ih =>
      intro i e he
      match hd with
      | (f, ep) =>
        cases hres : (runConfig exp i f ep R nP ds).2 with
        | some e1 =>
            rw [fullRunGo_cons_error exp R nP ds f ep rest i e1 hres] at he
            refine ⟨0, f, ep, by simp, by simpa using he, ?_⟩
            intro j2 f2 ep2 hj2 _
            cases hj2
        | none =>
            rw [fullRunGo_cons_ok exp R nP ds f ep rest i hres] at he
            rcases List.mem_append.mp he with he | he
            · refine ⟨0, f, ep, by simp, by simpa using he, ?_⟩
              intro j2 f2 ep2 hj2 _
              cases hj2
            · rcases ih (i + 1) e he with ⟨j, f2, ep2, hj, hmem, hbefore⟩
              refine ⟨j + 1, f2, ep2, by simpa using hj, ?_, ?_⟩
              · have : i + (j + 1) = (i + 1) + j := by omega
                rw [this]
                exact hmem
              · intro j3 f3 ep3 hj3 hget
                cases j3 with
                | zero =>
                    simp only [List.getElem?_cons_zero, Option.some.injEq]
                      at hget
                    have : (f3, ep3) = (f, ep) := hget.symm ▸ rfl
                    cases this
                    simpa using hres
                | succ j4 =>
                    have : i + (j4 + 1) = (i + 1) + j4 := by omega
                    rw [this]
                    exact hbefore j4 f3 ep3 (by omega) (by simpa using hget)

theorem fullRunGo_mem_intro (exp : Experiment) (R nP : Nat)
    (ds : List String) :
    ∀ (configs : List (SimFactory × Nat)) (i j : Nat) (f : SimFactory)
      (ep : Nat) (e : Event),
      configs[j]? = some (f, ep) →
      (∀ j2 f2 ep2, j2 < j → configs[j2]? = some (f2, ep2) →
        (runConfig exp (i + j2) f2 ep2 R nP ds).2 = none) →
      e ∈ (runConfig exp (i + j) f ep R nP ds).1 →
      e ∈ (fullRunGo exp R nP ds configs i).1 := by
  intro configs
  induction configs with
  | nil =>
      intro i j f ep e hj _ _
      rw [List.getElem?_nil] at hj
      cases hj
  | cons hd rest ih =>
      intro i j f ep e hj hbefore hmem
      match hd with
      | (f0, ep0) =>
        cases j with
        | zero =>
            simp only [List.getElem?_cons_zero, Option.some.injEq] at hj
            have : (f0, ep0) = (f, ep) := hj
            cases this
            cases hres : (runConfig exp i f ep R nP ds).2 with
            | some e1 =>
                rw [fullRunGo_cons_error exp R nP ds f ep rest i e1 hres]
                simpa using hmem
            | none =>
                rw [fullRunGo_cons_ok exp R nP ds f ep rest i hres]
                exact List.mem_append_left _ (by simpa using hmem)
        | succ j2 =>
            have hres : (runConfig exp i f0 ep0 R nP ds).2 = none := by
              have := hbefore 0 f0 ep0 (Nat.succ_pos _)
                (by simp)
              simpa using this
            rw [fullRunGo_cons_ok exp R nP ds f0 ep0 rest i hres]
            refine List.mem_append_right _ ?_
            refine ih (i + 1) j2 f ep e (by simpa using hj) ?_ ?_
            · intro j3 f3 ep3 hj3 hget
              have : i + (j3 + 1) = (i + 1) + j3 := by omega
              rw [← this]
              exact hbefore (j3 + 1) f3 ep3 (by omega) (by simpa using hget)
            · have : i + (j2 + 1) = (i + 1) + j2 := by omega
              rw [← this]
              exact hmem

theorem fullRunGo_abort (exp : Experiment) (R nP : Nat) (ds : List String) :
    ∀ (configs : List (SimFactory × Nat)) (i j : Nat) (f : SimFactory)
      (ep : Nat) (e1 : String),
      configs[j]? = some (f, ep) →
      (∀ j2 f2 ep2, j2 < j → configs[j2]? = some (f2, ep2) →
        (runConfig exp (i + j2) f2 ep2 R nP ds).2 = none) →
      (runConfig exp (i + j) f ep R nP ds).2 = some e1 →
      (fullRunGo exp R nP ds configs i).2 = some e1 ∧
      ∀ e ∈ (fullRunGo exp R nP ds configs i).1, e.config ≤ i + j := by
  intro configs
  induction configs with
  | nil =>
      intro i j f ep e1 hj _ _
      rw [List.getElem?_nil] at hj
      cases hj
  | cons hd rest ih =>
      intro i j f ep e1 hj hbefore herr
      match hd with
      | (f0, ep0) =>
        cases j with
        | zero =>
            simp only [List.getElem?_cons_zero, Option.some.injEq] at hj
            have : (f0, ep0) = (f, ep) := hj
            cases this
            have herr2 : (runConfig exp i f ep R nP ds).2 = some e1 := by
              simpa using herr
            rw [fullRunGo_cons_error exp R nP ds f ep rest i e1 herr2]
            refine ⟨rfl, ?_⟩
            intro e he
            rw [runConfig_config exp i f ep R nP ds e he]
            omega
        | succ j2 =>
            have hres : (runConfig exp i f0 ep0 R nP ds).2 = none := by
              have := hbefore 0 f0 ep0 (Nat.succ_pos _) (by simp)
              simpa using this
            rw [fullRunGo_cons_ok exp R nP ds f0 ep0 rest i hres]
            have hshift : ∀ j3 f3 ep3, j3 < j2 → rest[j3]? = some (f3, ep3) →
                (runConfig exp ((i + 1) + j3) f3 ep3 R nP ds).2 = none := by
              intro j3 f3 ep3 hj3 hget
              have : (i + 1) + j3 = i + (j3 + 1) := by omega
              rw [this]
              exact hbefore (j3 + 1) f3 ep3 (by omega) (by simpa using hget)
            have herr2 : (runConfig exp ((i + 1) + j2) f ep R nP ds).2
                = some e1 := by
              have : (i + 1) + j2 = i + (j2 + 1) := by omega
              rw [this]
              exact herr
            rcases ih (i + 1) j2 f ep e1 (by simpa using hj) hshift herr2
              with ⟨hres2, hle⟩
            refine ⟨hres2, ?_⟩
            intro e he
            rcases List.mem_append.mp he with he | he
            · rw [runConfig_config exp i f0 ep0 R nP ds e he]
              omega
            · have := hle e he
              omega

theorem runConfig_not_valueError (exp : Experiment) (cfg : Nat)
    (f : SimFactory) (ep R nP : Nat) (ds : List String) (e : Event)
    (he : e ∈ (runConfig exp cfg f ep R nP ds).1) :
    ¬(ds.length ≠ 0 ∧ nP = 0) := by
  intro hbr
  rw [runConfig_valueError exp cfg f ep R nP ds hbr] at he
  cases he

theorem runConfig_base_sub (exp : Experiment) (cfg : Nat) (f : SimFactory)
    (ep R nP : Nat) (ds : List String) (h : ¬(ds.length ≠ 0 ∧ nP = 0)) :
    ∀ e ∈ configBaseEvents cfg R ep f ds,
      e ∈ (runConfig exp cfg f ep R nP ds).1 := by
  intro e he
  cases hres : (collectLoop f cfg R ep ds.enum).2 with
  | error e1 =>
      rw [runConfig_collect_error exp cfg f ep R nP ds e1 h hres]
      exact he
  | ok allOuts =>
      cases hri : representativeIdentifier f with
      | error e1 =>
          rw [runConfig_ident_error exp cfg f ep R nP ds e1 allOuts h hres hri]
          exact he
      | ok sid =>
          rw [runConfig_success exp cfg f ep R nP ds sid allOuts h hres hri]
          exact List.mem_append_left _ he

theorem runConfig_collect_elim (exp : Experiment) (cfg : Nat)
    (f : SimFactory) (ep R nP : Nat) (ds : List String) (c p : Nat)
    (outs : List (Nat × Int × String))
    (he : Event.collect c p outs ∈ (runConfig exp cfg f ep R nP ds).1) :
    c = cfg ∧ Event.collect cfg p outs ∈ (collectLoop f cfg R ep ds.enum).1 := by
  rcases runConfig_mem_cases exp cfg f ep R nP ds _ he with
    hb | ⟨allOuts, sid, _, _, heq, _⟩
  · rw [configBaseEvents] at hb
    rcases List.mem_append.mp hb with hb | hb
    · rcases List.mem_append.mp hb with hb | hb
      · rcases mem_poolCreateEvents cfg ds _ hb with ⟨p2, _, h2⟩
        cases h2
      · rw [submitEvents] at hb
        rcases List.mem_map.mp hb with ⟨pd, _, h2⟩
        cases h2
    · have hc : c = cfg := by
        rcases collectLoop_events f cfg R ep ds.enum _ hb with ⟨p2, _, hsh⟩
        rcases hsh with ⟨outs2, h2⟩ | h2 | h2 <;> cases h2 <;> rfl
      subst hc
      exact ⟨rfl, hb⟩
  · cases heq

theorem runConfig_close_elim (exp : Experiment) (cfg : Nat)
    (f : SimFactory) (ep R nP : Nat) (ds : List String) (c p : Nat)
    (he : Event.poolClose c p ∈ (runConfig exp cfg f ep R nP ds).1) :
    c = cfg ∧ Event.poolClose cfg p ∈ (collectLoop f cfg R ep ds.enum).1 := by
  rcases runConfig_mem_cases exp cfg f ep R nP ds _ he with
    hb | ⟨allOuts, sid, _, _, heq, _⟩
  · rw [configBaseEvents] at hb
    rcases List.mem_append.mp hb with hb | hb
    · rcases List.mem_append.mp hb with hb | hb
      · rcases mem_poolCreateEvents cfg ds _ hb with ⟨p2, _, h2⟩
        cases h2
      · rw [submitEvents] at hb
        rcases List.mem_map.mp hb with ⟨pd, _, h2⟩
        cases h2
    · have hc : c = cfg := by
        rcases collectLoop_events f cfg R ep ds.enum _ hb with ⟨p2, _, hsh⟩
        rcases hsh with ⟨outs2, h2⟩ | h2 | h2 <;> cases h2 <;> rfl
      subst hc
      exact ⟨rfl, hb⟩
  · cases heq

theorem runConfig_join_elim (exp : Experiment) (cfg : Nat)
    (f : SimFactory) (ep R nP : Nat) (ds : List String) (c p : Nat)
    (he : Event.poolJoin c p ∈ (runConfig exp cfg f ep R nP ds).1) :
    c = cfg ∧ Event.poolJoin cfg p ∈ (collectLoop f cfg R ep ds.enum).1 := by
  rcases runConfig_mem_cases exp cfg f ep R nP ds _ he with
    hb | ⟨allOuts, sid, _, _, heq, _⟩
  · rw [configBaseEvents] at hb
    rcases List.mem_append.mp hb with hb | hb
    · rcases List.mem_append.mp hb with hb | hb
      · rcases mem_poolCreateEvents cfg ds _ hb with ⟨p2, _, h2⟩
        cases h2
      · rw [submitEvents] at hb
        rcases List.mem_map.mp hb with ⟨pd, _, h2⟩
        cases h2
    · have hc : c = cfg := by
        rcases collectLoop_events f cfg R ep ds.enum _ hb with ⟨p2, _, hsh⟩
        rcases hsh with ⟨outs2, h2⟩ | h2 | h2 <;> cases h2 <;> rfl
      subst hc
      exact ⟨rfl, hb⟩
  · cases heq

theorem collEvs_mem_base (cfg R ep : Nat) (f : SimFactory) (ds : List String)
    (e : Event) (he : e ∈ (collectLoop f cfg R ep ds.enum).1) :
    e ∈ configBaseEvents cfg R ep f ds := by
  rw [configBaseEvents]
  exact List.mem_append_right _ he

theorem pool_lt_of_mem_collectLoop (cfg R ep : Nat) (f : SimFactory)
    (ds : List String) (e : Event)
    (he : e ∈ (collectLoop f cfg R ep ds.enum).1) :
    ∃ p, (∃ d, (p, d) ∈ ds.enum ∧ p < ds.length) ∧
      ((∃ outs, e = .collect cfg p outs) ∨ e = .poolClose cfg p ∨
        e = .poolJoin cfg p) := by
  rcases collectLoop_events f cfg R ep ds.enum e he with ⟨p, ⟨d, hd⟩, hsh⟩
  refine ⟨p, ⟨d, hd, ?_⟩, hsh⟩
  have := List.mem_enum_iff_getElem?.mp hd
  rcases List.getElem?_eq_some_iff.mp this with ⟨hlt, _⟩
  exact hlt

/-! ### C4: pool lifecycle -/

/-- C4: pool cleanup and isolation in the `full_run` trace, whether the run
ended normally or by an exception. (i) Every pool whose results were
collected was closed and joined. (ii) For a completed (saved)
configuration, every device position has its pool created, collected,
closed and joined. (iii) Every pool that is collected, closed or joined
was created by (and for) its own configuration -- pool identities are per
configuration, so no pool is reused across configurations. -/
theorem c4_pool_cleanup (exp : Experiment) (R nP : Nat) (ds : List String)
    (eps : EpochsArg) :
    (∀ (c p : Nat) (outs : List (Nat × Int × String)),
        Event.collect c p outs ∈ (full_run exp R nP ds eps).1 →
        Event.poolClose c p ∈ (full_run exp R nP ds eps).1 ∧
          Event.poolJoin c p ∈ (full_run exp R nP ds eps).1)
    ∧ (∀ (c : Nat) (x : Identifier × List (Nat × Int × String))
          (path : String),
        Event.save c x path ∈ (full_run exp R nP ds eps).1 →
        ∀ p, p < ds.length →
          Event.poolCreate c p ∈ (full_run exp R nP ds eps).1 ∧
          (∃ outs, Event.collect c p outs ∈ (full_run exp R nP ds eps).1) ∧
          Event.poolClose c p ∈ (full_run exp R nP ds eps).1 ∧
          Event.poolJoin c p ∈ (full_run exp R nP ds eps).1)
    ∧ (∀ (c p : Nat),
        ((∃ outs, Event.collect c p outs ∈ (full_run exp R nP ds eps).1) ∨
          Event.poolClose c p ∈ (full_run exp R nP ds eps).1 ∨
          Event.poolJoin c p ∈ (full_run exp R nP ds eps).1) →
        Event.poolCreate c p ∈ (full_run exp R nP ds eps).1) := by
  refine ⟨?_, ?_, ?_⟩
  · intro c p outs hs
    have hs2 : Event.collect c p outs ∈ (fullRunGo exp R nP ds
        (zipCycle exp.simulation_factories (normEpochs eps)) 0).1 := hs
    rcases fullRunGo_mem exp R nP ds _ 0 _ hs2 with ⟨j, f, ep, hj, hmem, hbef⟩
    rcases runConfig_collect_elim exp (0 + j) f ep R nP ds c p outs hmem
      with ⟨hc, hcoll⟩
    rcases collectLoop_collect_close f (0 + j) R ep ds.enum p outs hcoll
      with ⟨hcl, hjn⟩
    have hnb := runConfig_not_valueError exp (0 + j) f ep R nP ds _ hmem
    have hcl2 := runConfig_base_sub exp (0 + j) f ep R nP ds hnb _
      (collEvs_mem_base (0 + j) R ep f ds _ hcl)
    have hjn2 := runConfig_base_sub exp (0 + j) f ep R nP ds hnb _
      (collEvs_mem_base (0 + j) R ep f ds _ hjn)
    subst hc
    exact ⟨fullRunGo_mem_intro exp R nP ds _ 0 j f ep _ hj hbef hcl2,
      fullRunGo_mem_intro exp R nP ds _ 0 j f ep _ hj hbef hjn2⟩
  · intro c x path hs p hp
    have hs2 : Event.save c x path ∈ (fullRunGo exp R nP ds
        (zipCycle exp.simulation_factories (normEpochs eps)) 0).1 := hs
    rcases fullRunGo_mem exp R nP ds _ 0 _ hs2 with ⟨j, f, ep, hj, hmem, hbef⟩
    rcases runConfig_save_elim exp (0 + j) f ep R nP ds c x path hmem with
      ⟨hok, hc, allOuts, sid, hcoll, hri, _, _⟩
    have hnb := runConfig_not_valueError exp (0 + j) f ep R nP ds _ hmem
    have hd : (p, ds[p]) ∈ ds.enum :=
      List.mem_enum_iff_getElem?.mpr (List.getElem?_eq_getElem hp)
    rcases collectLoop_ok_mem f (0 + j) R ep ds.enum allOuts hcoll
      (p, ds[p]) hd with ⟨bouts, _, hcm, hclm, hjm⟩
    have hcr : Event.poolCreate (0 + j) p ∈ configBaseEvents (0 + j) R ep f ds := by
      rw [configBaseEvents]
      exact List.mem_append_left _ (List.mem_append_left _
        (mem_poolCreateEvents_intro (0 + j) ds p hp))
    subst hc
    refine ⟨fullRunGo_mem_intro exp R nP ds _ 0 j f ep _ hj hbef
        (runConfig_base_sub exp (0 + j) f ep R nP ds hnb _ hcr),
      ⟨bouts, fullRunGo_mem_intro exp R nP ds _ 0 j f ep _ hj hbef
        (runConfig_base_sub exp (0 + j) f ep R nP ds hnb _
          (collEvs_mem_base (0 + j) R ep f ds _ hcm))⟩,
      fullRunGo_mem_intro exp R nP ds _ 0 j f ep _ hj hbef
        (runConfig_base_sub exp (0 + j) f ep R nP ds hnb _
          (collEvs_mem_base (0 + j) R ep f ds _ hclm)),
      fullRunGo_mem_intro exp R nP ds _ 0 j f ep _ hj hbef
        (runConfig_base_sub exp (0 + j) f ep R nP ds hnb _
          (collEvs_mem_base (0 + j) R ep f ds _ hjm))⟩
  · intro c p hs
    have hget : ∀ (j : Nat) (f : SimFactory) (ep : Nat),
        (zipCycle exp.simulation_factories (normEpochs eps))[j]? = some (f, ep) →
        (∀ j2 f2 ep2, j2 < j →
          (zipCycle exp.simulation_factories (normEpochs eps))[j2]? = some (f2, ep2) →
          (runConfig exp (0 + j2) f2 ep2 R nP ds).2 = none) →
        Event.poolCreate (0 + j) p ∈
          (runConfig exp (0 + j) f ep R nP ds).1 →
        Event.poolCreate (0 + j) p ∈ (full_run exp R nP ds eps).1 := by
      intro j f ep hj hbef hmem
      exact fullRunGo_mem_intro exp R nP ds _ 0 j f ep _ hj hbef hmem
    rcases hs with ⟨outs, hs⟩ | hs | hs
    · have hs2 : Event.collect c p outs ∈ (fullRunGo exp R nP ds
          (zipCycle exp.simulation_factories (normEpochs eps)) 0).1 := hs
      rcases fullRunGo_mem exp R nP ds _ 0 _ hs2 with ⟨j, f, ep, hj, hmem, hbef⟩
      rcases runConfig_collect_elim exp (0 + j) f ep R nP ds c p outs hmem
        with ⟨hc, hcoll⟩
      rcases pool_lt_of_mem_collectLoop (0 + j) R ep f ds _ hcoll with
        ⟨p2, ⟨d, _, hplt⟩, hsh⟩
      have hp2 : p2 = p := by
        rcases hsh with ⟨outs2, h2⟩ | h2 | h2 <;> cases h2 <;> rfl
      rw [hp2] at hplt
      have hnb := runConfig_not_valueError exp (0 + j) f ep R nP ds _ hmem
      have hcr : Event.poolCreate (0 + j) p ∈ configBaseEvents (0 + j) R ep f ds := by
        rw [configBaseEvents]
        exact List.mem_append_left _ (List.mem_append_left _
          (mem_poolCreateEvents_intro (0 + j) ds p hplt))
      subst hc
      exact hget j f ep hj hbef
        (runConfig_base_sub exp (0 + j) f ep R nP ds hnb _ hcr)
    · have hs2 : Event.poolClose c p ∈ (fullRunGo exp R nP ds
          (zipCycle exp.simulation_factories (normEpochs eps)) 0).1 := hs
      rcases fullRunGo_mem exp R nP ds _ 0 _ hs2 with ⟨j, f, ep, hj, hmem, hbef⟩
      rcases runConfig_close_elim exp (0 + j) f ep R nP ds c p hmem
        with ⟨hc, hcoll⟩
      rcases pool_lt_of_mem_collectLoop (0 + j) R ep f ds _ hcoll with
        ⟨p2, ⟨d, _, hplt⟩, hsh⟩
      have hp2 : p2 = p := by
        rcases hsh with ⟨outs2, h2⟩ | h2 | h2 <;> cases h2 <;> rfl
      rw [hp2] at hplt
      have hnb := runConfig_not_valueError exp (0 + j) f ep R nP ds _ hmem
      have hcr : Event.poolCreate (0 + j) p ∈ configBaseEvents (0 + j) R ep f ds := by
        rw [configBaseEvents]
        exact List.mem_append_left _ (List.mem_append_left _
          (mem_poolCreateEvents_intro (0 + j) ds p hplt))
      subst hc
      exact hget j f ep hj hbef
        (runConfig_base_sub exp (0 + j) f ep R nP ds hnb _ hcr)
    · have hs2 : Event.poolJoin c p ∈ (fullRunGo exp R nP ds
          (zipCycle exp.simulation_factories (normEpochs eps)) 0).1 := hs
      rcases fullRunGo_mem exp R nP ds _ 0 _ hs2 with ⟨j, f, ep, hj, hmem, hbef⟩
      rcases runConfig_join_elim exp (0 + j) f ep R nP ds c p hmem
        with ⟨hc, hcoll⟩
      rcases pool_lt_of_mem_collectLoop (0 + j) R ep f ds _ hcoll with
        ⟨p2, ⟨d, _, hplt⟩, hsh⟩
      have hp2 : p2 = p := by
        rcases hsh with ⟨outs2, h2⟩ | h2 | h2 <;> cases h2 <;> rfl
      rw [hp2] at hplt
      have hnb := runConfig_not_valueError exp (0 + j) f ep R nP ds _ hmem
      have hcr : Event.poolCreate (0 + j) p ∈ configBaseEvents (0 + j) R ep f ds := by
        rw [configBaseEvents]
        exact List.mem_append_left _ (List.mem_append_left _
          (mem_poolCreateEvents_intro (0 + j) ds p hplt))
      subst hc
      exact hget j f ep hj hbef
        (runConfig_base_sub exp (0 + j) f ep R nP ds hnb _ hcr)

theorem c4_witness :
    Event.poolClose 0 0 ∈ (full_run probeExp 1 1 ["A"] (.int 1)).1
    ∧ Event.poolJoin 0 0 ∈ (full_run probeExp 1 1 ["A"] (.int 1)).1 :=
  (c4_pool_cleanup probeExp 1 1 ["A"] (.int 1)).1 0 0 [(1, 0, "A")]
    (by decide)

/-! ### C5: persistence -/

/-- The `(experiment_id, file_path)` recorded by a save event. -/
def saveEntry : Event → Option (Nat × String)
  | .save c _ path => some (c, path)
  | _ => none

/-- The sequence of `save_to_disk` calls of a trace, in order. -/
def savesOf (tr : List Event) : List (Nat × String) :=
  tr.filterMap saveEntry

theorem savesOf_base (cfg R ep : Nat) (f : SimFactory) (ds : List String) :
    savesOf (configBaseEvents cfg R ep f ds) = [] := by
  rw [savesOf, List.filterMap_eq_nil_iff]
  intro e he
  rcases configBaseEvents_shape cfg R ep f ds e he with
    ⟨p, _, he⟩ | ⟨p, d, args, _, he⟩ | ⟨p, d, _, hsh⟩
  · rw [he]; rfl
  · rw [he]; rfl
  · rcases hsh with ⟨outs, he⟩ | he | he <;> (rw [he]; rfl)

theorem runConfig_savesOf_ok (exp : Experiment) (cfg : Nat) (f : SimFactory)
    (ep R nP : Nat) (ds : List String)
    (h : (runConfig exp cfg f ep R nP ds).2 = none) :
    savesOf (runConfig exp cfg f ep R nP ds).1
      = [(cfg, savePath exp.name cfg)] := by
  rcases runConfig_ok_events exp cfg f ep R nP ds h with
    ⟨allOuts, sid, _, _, hevs⟩
  rw [hevs, savesOf, List.filterMap_append]
  rw [show (configBaseEvents cfg R ep f ds).filterMap saveEntry
      = savesOf (configBaseEvents cfg R ep f ds) from rfl]
  rw [savesOf_base]
  rfl

theorem runConfig_savesOf_error (exp : Experiment) (cfg : Nat)
    (f : SimFactory) (ep R nP : Nat) (ds : List String) (e : String)
    (h : (runConfig exp cfg f ep R nP ds).2 = some e) :
    savesOf (runConfig exp cfg f ep R nP ds).1 = [] := by
  rw [savesOf, List.filterMap_eq_nil_iff]
  intro e2 he2
  rcases runConfig_mem_cases exp cfg f ep R nP ds e2 he2 with
    hb | ⟨allOuts, sid, _, _, _, h2⟩
  · rcases configBaseEvents_shape cfg R ep f ds e2 hb with
      ⟨p, _, he⟩ | ⟨p, d, args, _, he⟩ | ⟨p, d, _, hsh⟩
    · rw [he]; rfl
    · rw [he]; rfl
    · rcases hsh with ⟨outs, he⟩ | he | he <;> (rw [he]; rfl)
  · rw [h2] at h
    cases h

theorem fullRunGo_saves (exp : Experiment) (R nP : Nat) (ds : List String) :
    ∀ (configs : List (SimFactory × Nat)) (i : Nat),
      ∃ k, k ≤ configs.length ∧
        savesOf (fullRunGo exp R nP ds configs i).1
          = (List.range k).map (fun j => (i + j, savePath exp.name (i + j)))
        ∧ ((fullRunGo exp R nP ds configs i).2 = none →
            k = configs.length) := by
  intro configs
  induction configs with
  | nil =>
      intro i
      exact ⟨0, Nat.le_refl 0, rfl, fun _ => rfl⟩
  | cons hd rest ih =>
      intro i
      match hd with
      | (f, ep) =>
        cases hres : (runConfig exp i f ep R nP ds).2 with
        | some e1 =>
            refine ⟨0, Nat.zero_le _, ?_, ?_⟩
            · rw [fullRunGo_cons_error exp R nP ds f ep rest i e1 hres]
              exact runConfig_savesOf_error exp i f ep R nP ds e1 hres
            · intro hnone
              rw [fullRunGo_cons_error exp R nP ds f ep rest i e1 hres]
                at hnone
              cases hnone
        | none =>
            rcases ih (i + 1) with ⟨k, hk, heq, himp⟩
            refine ⟨k + 1, by simpa using hk, ?_, ?_⟩
            · rw [fullRunGo_cons_ok exp R nP ds f ep rest i hres]
              rw [savesOf, List.filterMap_append]
              rw [show (runConfig exp i f ep R nP ds).1.filterMap saveEntry
                  = savesOf (runConfig exp i f ep R nP ds).1 from rfl]
              rw [runConfig_savesOf_ok exp i f ep R nP ds hres]
              rw [show (fullRunGo exp R nP ds rest (i + 1)).1.filterMap
                    saveEntry
                  = savesOf (fullRunGo exp R nP ds rest (i + 1)).1 from rfl]
              rw [heq]
              rw [List.range_succ_eq_map]
              rw [List.map_cons, List.map_map]
              refine congrArg₂ List.cons (by rw [Nat.add_zero]) ?_
              apply List.map_congr_left
              intro j _
              have : i + Nat.succ j = (i + 1) + j := by omega
              simp only [Function.comp_apply, this]
            · intro hnone
              rw [fullRunGo_cons_ok exp R nP ds f ep rest i hres] at hnone
              simp only [List.length_cons]
              rw [himp hnone]

/-- C5: `full_run` persists one bundle per processed configuration, through
exactly one save call per configuration, at the path
`<outputs-root>/<experiment-name>/experiment_<experiment-id>`, with
experiment ids 0, 1, 2, ... (strictly increasing, starting at 0,
incrementing once per configuration, not per job); on a normal return the
number of saves equals the number of configurations in the sweep. -/
theorem c5_persistence (exp : Experiment) (R nP : Nat) (ds : List String)
    (eps : EpochsArg) :
    savesOf (full_run exp R nP ds eps).1
      = (List.range (savesOf (full_run exp R nP ds eps).1).length).map
          (fun c => (c, savePath exp.name c))
    ∧ (savesOf (full_run exp R nP ds eps).1).length
        ≤ (zipCycle exp.simulation_factories (normEpochs eps)).length
    ∧ ((full_run exp R nP ds eps).2 = none →
        (savesOf (full_run exp R nP ds eps).1).length
          = (zipCycle exp.simulation_factories (normEpochs eps)).length) := by
  rcases fullRunGo_saves exp R nP ds
    (zipCycle exp.simulation_factories (normEpochs eps)) 0 with
    ⟨k, hk, heq, himp⟩
  have hsame : savesOf (full_run exp R nP ds eps).1
      = savesOf (fullRunGo exp R nP ds
          (zipCycle exp.simulation_factories (normEpochs eps)) 0).1 := rfl
  have hlen : (savesOf (full_run exp R nP ds eps).1).length = k := by
    rw [hsame, heq, List.length_map, List.length_range]
  refine ⟨?_, ?_, ?_⟩
  · rw [hsame, heq]
    simp only [List.length_map, List.length_range]
    apply List.map_congr_left
    intro j _
    rw [Nat.zero_add]
  · rw [hlen]
    exact hk
  · intro hnone
    rw [hlen]
    exact himp hnone

theorem c5_witness :
    (full_run probeExp 1 1 ["A"] (.int 2)).2 = none
    ∧ (savesOf (full_run probeExp 1 1 ["A"] (.int 2)).1).length
        = (zipCycle probeExp.simulation_factories (normEpochs (.int 2))).length :=
  ⟨rfl, (c5_persistence probeExp 1 1 ["A"] (.int 2)).2.2 rfl⟩

/-! ### C2: deterministic seed partitioning -/

/-- The seed components of a submission event of configuration `c`. -/
def submitSeedsAt (c : Nat) : Event → Option (List Int)
  | .submit c2 _ args =>
      if c2 = c then some (args.map (fun a => a.1)) else none
  | _ => none

/-- All seeds submitted for configuration `c`, in submission order (pools
in device order, runs in index order within a pool). -/
def seedsUsed (tr : List Event) (c : Nat) : List Int :=
  (tr.filterMap (submitSeedsAt c)).flatten

theorem submitSeedsAt_none (c : Nat) (e : Event) (h : e.config ≠ c) :
    submitSeedsAt c e = none := by
  cases e with
  | submit c2 p args =>
      have h2 : c2 ≠ c := h
      simp only [submitSeedsAt, if_neg h2]
  | poolCreate c2 p => rfl
  | collect c2 p outs => rfl
  | poolClose c2 p => rfl
  | poolJoin c2 p => rfl
  | save c2 x path => rfl

theorem fullRunGo_filterMap {γ : Type} (exp : Experiment) (R nP : Nat)
    (ds : List String) (g : Event → Option γ) (c : Nat)
    (hg : ∀ e, e.config ≠ c → g e = none) :
    ∀ (configs : List (SimFactory × Nat)) (i j : Nat) (f : SimFactory)
      (ep : Nat),
      c = i + j → configs[j]? = some (f, ep) →
      (∀ j2 f2 ep2, j2 < j → configs[j2]? = some (f2, ep2) →
        (runConfig exp (i + j2) f2 ep2 R nP ds).2 = none) →
      (fullRunGo exp R nP ds configs i).1.filterMap g
        = ((runConfig exp c f ep R nP ds).1).filterMap g := by
  intro configs
  induction configs with
  | nil =>
      intro i j f ep _ hj _
      rw [List.getElem?_nil] at hj
      cases hj
  | cons hd rest ih =>
      intro i j f ep hc hj hbef
      match hd with
      | (f0, ep0) =>
        cases j with
        | zero =>
            simp only [List.getElem?_cons_zero, Option.some.injEq] at hj
            have : (f0, ep0) = (f, ep) := hj
            cases this
            cases hres : (runConfig exp i f ep R nP ds).2 with
            | some e1 =>
                rw [fullRunGo_cons_error exp R nP ds f ep rest i e1 hres]
                rw [hc, Nat.add_zero]
            | none =>
                rw [fullRunGo_cons_ok exp R nP ds f ep rest i hres]
                rw [List.filterMap_append]
                have htail : (fullRunGo exp R nP ds rest (i + 1)).1.filterMap g
                    = [] := by
                  rw [List.filterMap_eq_nil_iff]
                  intro e he
                  apply hg
                  have := fullRunGo_config_ge exp R nP ds rest (i + 1) e he
                  omega
                rw [htail, List.append_nil, hc, Nat.add_zero]
        | succ j2 =>
            have hres : (runConfig exp i f0 ep0 R nP ds).2 = none := by
              have := hbef 0 f0 ep0 (Nat.succ_pos _) (by simp)
              simpa using this
            rw [fullRunGo_cons_ok exp R nP ds f0 ep0 rest i hres]
            rw [List.filterMap_append]
            have hhead : (runConfig exp i f0 ep0 R nP ds).1.filterMap g
                = [] := by
              rw [List.filterMap_eq_nil_iff]
              intro e he
              apply hg
              rw [runConfig_config exp i f0 ep0 R nP ds e he]
              omega
            rw [hhead, List.nil_append]
            refine ih (i + 1) j2 f ep (by omega) (by simpa using hj) ?_
            intro j3 f3 ep3 hj3 hget
            have heq2 : (i + 1) + j3 = i + (j3 + 1) := by omega
            rw [heq2]
            exact hbef (j3 + 1) f3 ep3 (by omega) (by simpa using hget)

theorem filterMap_eq_map_of_some {α β : Type} {g : α → Option β}
    {f : α → β} : ∀ {l : List α}, (∀ x ∈ l, g x = some (f x)) →
      l.filterMap g = l.map f := by
  intro l
  induction l with
  | nil => intro _; rfl
  | cons x xs ih =>
      intro h
      rw [List.filterMap_cons_some (h x (List.mem_cons_self x xs)),
        List.map_cons, ih (fun a ha => h a (List.mem_cons_of_mem _ ha))]

theorem seeds_flatten_int (R : Nat) :
    ∀ D : Nat, ((List.range D).map
        (fun p => (List.range R).map
          (fun i => ((p * R + i : Nat) : Int)))).flatten
      = (List.range (R * D)).map (fun n : Nat => (n : Int)) := by
  intro D
  induction D with
  | zero => rfl
  | succ D ih =>
      rw [List.range_succ, List.map_append, List.flatten_append, ih]
      simp only [List.map_cons, List.map_nil, List.flatten_cons,
        List.flatten_nil, List.append_nil]
      rw [Nat.mul_succ, List.range_add, List.map_append, List.map_map]
      refine congrArg₂ List.append rfl ?_
      apply List.map_congr_left
      intro i _
      simp only [Function.comp_apply]
      rw [Nat.mul_comm D R]

theorem runConfig_seedsUsed (exp : Experiment) (cfg : Nat) (f : SimFactory)
    (ep R nP : Nat) (ds : List String) (e0 : Event)
    (he0 : e0 ∈ (runConfig exp cfg f ep R nP ds).1) :
    ((runConfig exp cfg f ep R nP ds).1.filterMap (submitSeedsAt cfg)).flatten
      = (List.range (R * ds.length)).map (fun n : Nat => (n : Int)) := by
  have hnb := runConfig_not_valueError exp cfg f ep R nP ds e0 he0
  have h1 : (poolCreateEvents cfg ds).filterMap (submitSeedsAt cfg) = [] := by
    rw [List.filterMap_eq_nil_iff]
    intro e he
    rcases mem_poolCreateEvents cfg ds e he with ⟨p, _, he⟩
    rw [he]
    rfl
  have h3 : ((collectLoop f cfg R ep ds.enum).1).filterMap
      (submitSeedsAt cfg) = [] := by
    rw [List.filterMap_eq_nil_iff]
    intro e he
    rcases collectLoop_events f cfg R ep ds.enum e he with ⟨p, _, hsh⟩
    rcases hsh with ⟨outs, he2⟩ | he2 | he2 <;> (rw [he2]; rfl)
  have h2 : (submitEvents cfg R ep ds).filterMap (submitSeedsAt cfg)
      = ds.enum.map
          (fun pd => (poolArgs R pd.1 pd.2 ep).map (fun a => a.1)) := by
    rw [submitEvents, List.filterMap_map]
    apply filterMap_eq_map_of_some
    intro pd _
    simp [Function.comp_apply, submitSeedsAt]
  have hbase : (configBaseEvents cfg R ep f ds).filterMap (submitSeedsAt cfg)
      = ds.enum.map
          (fun pd => (poolArgs R pd.1 pd.2 ep).map (fun a => a.1)) := by
    rw [configBaseEvents, List.filterMap_append, List.filterMap_append]
    rw [h1, h2, h3, List.nil_append, List.append_nil]
  have hfm : (runConfig exp cfg f ep R nP ds).1.filterMap (submitSeedsAt cfg)
      = ds.enum.map
          (fun pd => (poolArgs R pd.1 pd.2 ep).map (fun a => a.1)) := by
    cases hres : (collectLoop f cfg R ep ds.enum).2 with
    | error e1 =>
        rw [runConfig_collect_error exp cfg f ep R nP ds e1 hnb hres]
        exact hbase
    | ok allOuts =>
        cases hri : representativeIdentifier f with
        | error e1 =>
            rw [runConfig_ident_error exp cfg f ep R nP ds e1 allOuts hnb
              hres hri]
            exact hbase
        | ok sid =>
            rw [runConfig_success exp cfg f ep R nP ds sid allOuts hnb
              hres hri]
            rw [List.filterMap_append, hbase]
            rw [show ([Event.save cfg (sid, allOuts.map (processOutput exp))
                  (savePath exp.name cfg)]).filterMap (submitSeedsAt cfg)
                = [] from rfl]
            rw [List.append_nil]
  rw [hfm]
  have hinner : ∀ pd : Nat × String,
      (poolArgs R pd.1 pd.2 ep).map (fun a => a.1)
        = (List.range R).map (fun i => ((pd.1 * R + i : Nat) : Int)) := by
    intro pd
    rw [poolArgs, List.map_map]
    rfl
  rw [List.map_congr_left (fun pd _ => hinner pd)]
  rw [show (fun pd : Nat × String => (List.range R).map
        (fun i => ((pd.1 * R + i : Nat) : Int)))
      = (fun p : Nat => (List.range R).map
          (fun i => ((p * R + i : Nat) : Int))) ∘ Prod.fst from rfl]
  rw [← List.map_map]
  rw [List.enum_eq_enumFrom, List.enumFrom_map_fst, ← List.range_eq_range']
  exact seeds_flatten_int R ds.length

/-- C2: in `full_run`, every submission to the pool at position `p` carries
exactly the seeds `p * n_runs_per_device + i` for `i` in
`[0, n_runs_per_device)` (in ascending run order), all bound to the device
at position `p` of `devices_list`; and for every configuration that appears
in the trace, the seeds submitted across all devices are exactly
`0, 1, ..., R * D - 1` in order (`R = n_runs_per_device`,
`D = len(devices_list)`). -/
theorem c2_seed_partitioning (exp : Experiment) (R nP : Nat)
    (ds : List String) (eps : EpochsArg) :
    (∀ (c p : Nat) (args : List (Int × String × Nat)),
        Event.submit c p args ∈ (full_run exp R nP ds eps).1 →
        args.map (fun a => a.1)
            = (List.range R).map (fun i => ((p * R + i : Nat) : Int))
          ∧ ∃ d, ds[p]? = some d
              ∧ args.map (fun a => a.2.1) = List.replicate R d)
    ∧ (∀ c : Nat,
        (∃ e0, e0 ∈ (full_run exp R nP ds eps).1 ∧ e0.config = c) →
        seedsUsed (full_run exp R nP ds eps).1 c
          = (List.range (R * ds.length)).map (fun n : Nat => (n : Int))) := by
  constructor
  · intro c p args hs
    have hs2 : Event.submit c p args ∈ (fullRunGo exp R nP ds
        (zipCycle exp.simulation_factories (normEpochs eps)) 0).1 := hs
    rcases fullRunGo_mem exp R nP ds _ 0 _ hs2 with ⟨j, f, ep, hj, hmem, _⟩
    rcases runConfig_submit_elim exp (0 + j) f ep R nP ds c p args hmem with
      ⟨_, d, hd, hargs⟩
    subst hargs
    constructor
    · rw [poolArgs, List.map_map]
      rfl
    · refine ⟨d, List.mem_enum_iff_getElem?.mp hd, ?_⟩
      rw [poolArgs, List.map_map]
      rw [show ((fun a : Int × String × Nat => a.2.1) ∘
          (fun i : Nat => (((p * R + i : Nat) : Int), d, ep)))
          = fun _ => d from rfl]
      rw [List.map_const']
      rw [List.length_range]
  · rintro c ⟨e0, he0, hc0⟩
    have he02 : e0 ∈ (fullRunGo exp R nP ds
        (zipCycle exp.simulation_factories (normEpochs eps)) 0).1 := he0
    rcases fullRunGo_mem exp R nP ds _ 0 _ he02 with ⟨j, f, ep, hj, hmem, hbef⟩
    have hc : c = 0 + j := by
      rw [← hc0, runConfig_config exp (0 + j) f ep R nP ds e0 hmem]
    have hfm := fullRunGo_filterMap exp R nP ds (submitSeedsAt c) c
      (submitSeedsAt_none c) _ 0 j f ep hc hj hbef
    rw [seedsUsed]
    rw [show (full_run exp R nP ds eps).1.filterMap (submitSeedsAt c)
        = (fullRunGo exp R nP ds
            (zipCycle exp.simulation_factories (normEpochs eps))
            0).1.filterMap (submitSeedsAt c) from rfl]
    rw [hfm]
    subst hc
    exact runConfig_seedsUsed exp (0 + j) f ep R nP ds e0 hmem

theorem c2_witness :
    ([((2 : Int), "B", 1), ((3 : Int), "B", 1)].map (fun a => a.1)
        = (List.range 2).map (fun i => ((1 * 2 + i : Nat) : Int)))
    ∧ ∃ d, (["A", "B"] : List String)[1]? = some d
        ∧ [((2 : Int), "B", 1), ((3 : Int), "B", 1)].map (fun a => a.2.1)
            = List.replicate 2 d :=
  (c2_seed_partitioning probeExp 2 1 ["A", "B"] (.int 1)).1 0 1
    [((2 : Int), "B", 1), ((3 : Int), "B", 1)] (by decide)

/-! ### C3: result ordering -/

/-- C3: for every configuration whose bundle was persisted, the persisted
results list is the concatenation, over devices in the caller-supplied
order of `devices_list`, of each device's job results in submission order
(`i = 0, 1, ...`, hence ascending seed within a device, since
`result.get()` returns results in argument order), each history processed
by the output handler and paired with its seed and device. -/
theorem c3_result_ordering (exp : Experiment) (R nP : Nat)
    (ds : List String) (eps : EpochsArg) (c : Nat) (f : SimFactory)
    (ep : Nat) (sid : Identifier) (outs : List (Nat × Int × String))
    (path : String)
    (hc : (zipCycle exp.simulation_factories (normEpochs eps))[c]?
        = some (f, ep))
    (hs : Event.save c (sid, outs) path ∈ (full_run exp R nP ds eps).1) :
    ∃ segs, exceptMapList (fun pd => runBatch f R pd.1 pd.2 ep) ds.enum
        = .ok segs
      ∧ outs
          = (segs.map (fun seg => seg.map (processOutput exp))).flatten := by
  have hs2 : Event.save c (sid, outs) path ∈ (fullRunGo exp R nP ds
      (zipCycle exp.simulation_factories (normEpochs eps)) 0).1 := hs
  rcases fullRunGo_mem exp R nP ds _ 0 _ hs2 with ⟨j, f2, ep2, hj, hmem, _⟩
  rcases runConfig_save_elim exp (0 + j) f2 ep2 R nP ds c (sid, outs) path
    hmem with ⟨_, hcc, allOuts, sid2, hcoll, _, hx, _⟩
  have hfe : (f2, ep2) = (f, ep) := by
    rw [hcc, Nat.zero_add] at hc
    rw [hj] at hc
    exact Option.some.inj hc
  cases hfe
  simp only [Prod.mk.injEq] at hx
  rcases collectLoop_ok_flatten f (0 + j) R ep ds.enum allOuts hcoll with
    ⟨segs, hsegs, hflat⟩
  refine ⟨segs, hsegs, ?_⟩
  rw [hx.2, hflat, List.map_flatten]

/-- The identifier of a probe configuration with the given batch size. -/
def probeIdentifier (bs : Int) : Identifier :=
  (construct_simulation_identifier (mkSimInstance 0 "cpu" bs)).getD []

theorem c3_witness :
    ∃ segs, exceptMapList
        (fun pd => runBatch (probeFactory 1) 1 pd.1 pd.2 1)
        (["A"] : List String).enum = .ok segs
      ∧ ([((1 : Nat), (0 : Int), "A")] : List (Nat × Int × String))
          = (segs.map (fun seg => seg.map (processOutput probeExp))).flatten :=
  c3_result_ordering probeExp 1 1 ["A"] (.int 1) 0 (probeFactory 1) 1
    (probeIdentifier 1) [((1 : Nat), (0 : Int), "A")]
    "./outputs/probe/experiment_0" rfl (by decide)

/-! ### C7: worker errors -/

/-- A factory whose simulation construction raises for seed 1. -/
def failFactory : SimFactory where
  build := fun seed device =>
    if seed = 1 then .error "boom"
    else .ok
      { inst := mkSimInstance seed device 9
        run := fun epochs => .ok (epochs, mkSimInstance seed device 9) }

/-- An experiment whose second configuration fails during construction of
one of its jobs. -/
def failExp : Experiment where
  name := "fail"
  simulation_factories := [probeFactory 1, failFactory]
  handle_simulation_output := id

/-- C7: (a) a configuration one of whose jobs raises during construction
or run persists nothing -- no save event for it exists in the trace -- and
if that configuration was reached, `full_run` ends with an exception and
no later configuration contributes any event; (b) whenever a
configuration is reached, every earlier configuration's bundle has been
persisted and remains in the trace (no retry is attempted anywhere). -/
theorem c7_worker_errors (exp : Experiment) (R nP : Nat) (ds : List String)
    (eps : EpochsArg) :
    (∀ (c : Nat) (f : SimFactory) (ep : Nat),
        (zipCycle exp.simulation_factories (normEpochs eps))[c]?
            = some (f, ep) →
        (∃ p d i e1, (p, d) ∈ ds.enum ∧ i < R ∧
          _job f ((p * R + i : Nat) : Int) d ep = .error e1) →
        (∀ x path, Event.save c x path ∉ (full_run exp R nP ds eps).1)
        ∧ ((∃ e0, e0 ∈ (full_run exp R nP ds eps).1 ∧ e0.config = c) →
            (full_run exp R nP ds eps).2.isSome = true
            ∧ ∀ e0 ∈ (full_run exp R nP ds eps).1, e0.config ≤ c))
    ∧ (∀ (c c2 : Nat), c2 < c →
        (∃ e0, e0 ∈ (full_run exp R nP ds eps).1 ∧ e0.config = c) →
        ∃ x path, Event.save c2 x path ∈ (full_run exp R nP ds eps).1) := by
  constructor
  · intro c f ep hc hfail
    rcases hfail with ⟨p, d, i, e1, hpd, hiR, hjob⟩
    have hbatch : ∃ e2, runBatch f R p d ep = .error e2 := by
      apply exceptMapList_error_of_mem _ _
        (((p * R + i : Nat) : Int), d, ep) e1
      · rw [poolArgs]
        exact List.mem_map.mpr ⟨i, List.mem_range.mpr hiR, rfl⟩
      · exact hjob
    rcases hbatch with ⟨e2, hbatch⟩
    have hcerr : ∃ e3, (collectLoop f c R ep ds.enum).2 = .error e3 :=
      collectLoop_error_of_batch f c R ep ds.enum (p, d) e2 hpd hbatch
    rcases hcerr with ⟨e3, hcerr⟩
    constructor
    · intro x path hs
      have hs2 : Event.save c x path ∈ (fullRunGo exp R nP ds
          (zipCycle exp.simulation_factories (normEpochs eps)) 0).1 := hs
      rcases fullRunGo_mem exp R nP ds _ 0 _ hs2 with ⟨j, f2, ep2, hj, hmem, _⟩
      rcases runConfig_save_elim exp (0 + j) f2 ep2 R nP ds c x path hmem
        with ⟨_, hcc, allOuts, sid2, hcoll, _, _, _⟩
      have hfe : (f2, ep2) = (f, ep) := by
        rw [hcc, Nat.zero_add] at hc
        rw [hj] at hc
        exact Option.some.inj hc
      cases hfe
      rw [hcc] at hcerr
      rw [hcoll] at hcerr
      cases hcerr
    · rintro ⟨e0, he0, hc0⟩
      have he02 : e0 ∈ (fullRunGo exp R nP ds
          (zipCycle exp.simulation_factories (normEpochs eps)) 0).1 := he0
      rcases fullRunGo_mem exp R nP ds _ 0 _ he02 with
        ⟨j, f2, ep2, hj, hmem, hbef⟩
      have hcc : c = 0 + j := by
        rw [← hc0, runConfig_config exp (0 + j) f2 ep2 R nP ds e0 hmem]
      have hfe : (f2, ep2) = (f, ep) := by
        rw [hcc, Nat.zero_add] at hc
        rw [hj] at hc
        exact Option.some.inj hc
      cases hfe
      have hnb := runConfig_not_valueError exp (0 + j) f ep R nP ds e0 hmem
      rw [hcc] at hcerr
      have hres : (runConfig exp (0 + j) f ep R nP ds).2 = some e3 := by
        rw [runConfig_collect_error exp (0 + j) f ep R nP ds e3 hnb hcerr]
      rcases fullRunGo_abort exp R nP ds _ 0 j f ep e3 hj hbef hres with
        ⟨hgo, hle⟩
      constructor
      · have h2 : (full_run exp R nP ds eps).2 = some e3 := hgo
        rw [h2]
        rfl
      · intro e1 he1
        have := hle e1 he1
        omega
  · intro c c2 hlt hreach
    rcases hreach with ⟨e0, he0, hc0⟩
    have he02 : e0 ∈ (fullRunGo exp R nP ds
        (zipCycle exp.simulation_factories (normEpochs eps)) 0).1 := he0
    rcases fullRunGo_mem exp R nP ds _ 0 _ he02 with
      ⟨j, f2, ep2, hj, hmem, hbef⟩
    have hcc : c = 0 + j := by
      rw [← hc0, runConfig_config exp (0 + j) f2 ep2 R nP ds e0 hmem]
    have hc2j : c2 < j := by omega
    have hjlen : j < (zipCycle exp.simulation_factories
        (normEpochs eps)).length := by
      rcases List.getElem?_eq_some_iff.mp hj with ⟨h, _⟩
      exact h
    have hsome : ∃ f3 ep3, (zipCycle exp.simulation_factories
        (normEpochs eps))[c2]? = some (f3, ep3) := by
      rcases hx : (zipCycle exp.simulation_factories
          (normEpochs eps))[c2]? with _ | pair
      · exfalso
        rw [List.getElem?_eq_none_iff] at hx
        omega
      · exact ⟨pair.1, pair.2, by rw [Prod.mk.eta]⟩
    rcases hsome with ⟨f3, ep3, hget2⟩
    have hok := hbef c2 f3 ep3 hc2j hget2
    rcases runConfig_ok_events exp (0 + c2) f3 ep3 R nP ds hok with
      ⟨allOuts, sid, _, _, hevs⟩
    have hsv : Event.save (0 + c2)
        (sid, allOuts.map (processOutput exp))
        (savePath exp.name (0 + c2))
        ∈ (runConfig exp (0 + c2) f3 ep3 R nP ds).1 := by
      rw [hevs]
      exact List.mem_append_right _ (List.mem_singleton.mpr rfl)
    have hin := fullRunGo_mem_intro exp R nP ds _ 0 c2 f3 ep3 _ hget2
      (fun j3 f4 ep4 hj3 hg => hbef j3 f4 ep4 (by omega) hg) hsv
    rw [Nat.zero_add] at hin
    exact ⟨(sid, allOuts.map (processOutput exp)),
      savePath exp.name c2, hin⟩

theorem c7_witness :
    (∀ x path, Event.save 1 x path ∉ (full_run failExp 2 1 ["A"] (.int 1)).1)
    ∧ (full_run failExp 2 1 ["A"] (.int 1)).2.isSome = true
    ∧ ∃ x path, Event.save 0 x path ∈ (full_run failExp 2 1 ["A"] (.int 1)).1 :=
  have h := c7_worker_errors failExp 2 1 ["A"] (.int 1)
  have ha := h.1 1 failFactory 1 rfl
    ⟨0, "A", 1, "boom", by decide, by decide, rfl⟩
  ⟨ha.1, (ha.2 ⟨Event.poolCreate 1 0, by decide, rfl⟩).1,
   h.2 1 0 (by decide) ⟨Event.poolCreate 1 0, by decide, rfl⟩⟩

/-! ### C9: prototype_run result size -/

/-- Two per-configuration identifier computations that cannot collide as
dictionary keys (a failed computation constrains nothing: the run would
have raised before reaching the dictionary). -/
def optIdentDistinct : Option Identifier → Option Identifier → Bool
  | some a, some b => !(identKeyEq a b)
  | _, _ => true

theorem resultsSet_append (d : List (Identifier × Nat)) (sid : Identifier)
    (r : Nat) (h : ∀ kv ∈ d, identKeyEq kv.1 sid = false) :
    resultsSet d sid r = d ++ [(sid, r)] := by
  rw [resultsSet, if_neg]
  intro hany
  rcases List.any_eq_true.mp hany with ⟨p, hp, hpe⟩
  rw [h p hp] at hpe
  cases hpe

theorem prototypeGo_length (exp : Experiment) (seed : Int)
    (device : String) :
    ∀ (configs : List (SimFactory × Nat)) (acc : List (Identifier × Nat))
      (res : List (Identifier × Nat)),
      prototypeGo exp seed device configs acc = .ok res →
      (configs.map (fun fe => protoIdent fe.1 seed device fe.2)).Pairwise
        (fun a b => optIdentDistinct a b = true) →
      (∀ fe ∈ configs, ∀ sid, protoIdent fe.1 seed device fe.2 = some sid →
        ∀ kv ∈ acc, identKeyEq kv.1 sid = false) →
      res.length = acc.length + configs.length := by
  intro configs
  induction configs with
  | nil =>
      intro acc res hok _ _
      rw [prototypeGo] at hok
      cases hok
      simp
  | cons hd rest ih =>
      intro acc res hok hpw hfresh
      match hd with
      | (f, ep) =>
        rw [prototypeGo] at hok
        cases hb : f.build seed device with
        | error e => simp only [hb] at hok; cases hok
        | ok simulation =>
            simp only [hb] at hok
            cases hr : simulation.run ep with
            | error e => simp only [hr] at hok; cases hok
            | ok pr =>
                rcases pr with ⟨history, instAfter⟩
                simp only [hr] at hok
                cases hcsi : construct_simulation_identifier instAfter with
                | none => simp only [hcsi] at hok; cases hok
                | some sid =>
                    simp only [hcsi] at hok
                    have hproto : protoIdent f seed device ep = some sid := by
                      simp only [protoIdent, hb, hr, hcsi]
                    have hfr : ∀ kv ∈ acc, identKeyEq kv.1 sid = false :=
                      hfresh (f, ep) (List.mem_cons_self _ _) sid hproto
                    rw [resultsSet_append acc sid _ hfr] at hok
                    rw [List.map_cons] at hpw
                    have hpw2 := (List.pairwise_cons.mp hpw).2
                    have hhead := (List.pairwise_cons.mp hpw).1
                    have hfresh2 : ∀ fe ∈ rest, ∀ sid2,
                        protoIdent fe.1 seed device fe.2 = some sid2 →
                        ∀ kv ∈ acc
                            ++ [(sid, exp.handle_simulation_output history)],
                          identKeyEq kv.1 sid2 = false := by
                      intro fe hfe sid2 hsid2 kv hkv
                      rcases List.mem_append.mp hkv with hkv | hkv
                      · exact hfresh fe (List.mem_cons_of_mem _ hfe) sid2
                          hsid2 kv hkv
                      · have hkv2 := List.mem_singleton.mp hkv
                        subst hkv2
                        have h2 := hhead _ (List.mem_map.mpr ⟨fe, hfe, rfl⟩)
                        rw [hproto, hsid2] at h2
                        simp only [optIdentDistinct] at h2
                        rw [Bool.not_eq_true'] at h2
                        exact h2
                    have h3 := ih
                      (acc ++ [(sid, exp.handle_simulation_output history)])
                      res hok hpw2 hfresh2
                    rw [h3]
                    simp only [List.length_append, List.length_cons,
                      List.length_nil]
                    omega

/-- C9, as stated, is false of the code: `prototype_run` stores results in
a dictionary keyed by the identifier, so two configurations with equal
identifiers collapse into one entry. With two identical configurations the
returned mapping has one entry, not two. -/
theorem c9_counterexample_duplicate_configs :
    (prototype_run dupExp 0 "cpu" (.int 1)).map List.length = .ok 1
    ∧ dupExp.simulation_factories.length = 2 :=
  ⟨rfl, rfl⟩

/-- C9 (amended): when the per-configuration identifiers are pairwise
distinct as dictionary keys and the epoch list is nonempty (an `int`
argument or a nonempty list -- `zip` against `cycle([])` is empty, so an
empty epoch list processes no configuration at all), the mapping returned
by `prototype_run` has exactly one entry per configuration of the sweep. -/
theorem c9_amended_result_size (exp : Experiment) (seed : Int)
    (device : String) (eps : EpochsArg) (res : List (Identifier × Nat))
    (hok : prototype_run exp seed device eps = .ok res)
    (hdist : ((zipCycle exp.simulation_factories (normEpochs eps)).map
        (fun fe => protoIdent fe.1 seed device fe.2)).Pairwise
        (fun a b => optIdentDistinct a b = true)) :
    res.length = (zipCycle exp.simulation_factories (normEpochs eps)).length
    ∧ (normEpochs eps ≠ [] →
        res.length = exp.simulation_factories.length) := by
  have h := prototypeGo_length exp seed device
    (zipCycle exp.simulation_factories (normEpochs eps)) [] res hok hdist
    (fun fe _ sid _ kv hkv => absurd hkv (List.not_mem_nil kv))
  rw [List.length_nil, Nat.zero_add] at h
  refine ⟨h, fun hne => ?_⟩
  rw [h, zipCycle_length exp.simulation_factories (normEpochs eps) hne]

/-- The result mapping of the three-configuration probe experiment. -/
def probeResList : List (Identifier × Nat) :=
  match prototype_run probeExp 0 "cpu" (.list [5, 2]) with
  | .ok res => res
  | .error _ => []

theorem c9_witness : probeResList.length = 3 :=
  (c9_amended_result_size probeExp 0 "cpu" (.list [5, 2]) probeResList rfl
    (by decide)).2 (by decide)

end Rprml
